import Mathlib

/-!
# Shallow embedding of `src/TableFunctions/ITableFunctionFileLike.cpp`

The translation unit defines three member functions of the abstract class
`ITableFunctionFileLike`:

* `parseArguments`            (lines 50-88),
* `executeImpl`               (lines 90-96),
* `getActualTableStructure`   (lines 98-110).

C++ exceptions become the error side of `Except`; the mutable members of the
object and the sequence of calls made to code outside the translation unit are
carried in an explicit `World`.  A throw keeps the world as it was at the throw,
exactly as a C++ exception keeps the assignments done before it.

Everything that lives outside the translation unit (the constant-expression
reducer, the path expander, the decoder factory, the column-list grammar, the
virtual members `getName` and `getStorage`, ...) is a parameter: a field of
`Context` or of `VTable`.
-/

namespace DB

/-! ## Errors -/

/-- The four codes declared `extern const int` in lines 42-48, and the codes that
only code outside the translation unit raises. -/
inductive ErrorCode where
  | LOGICAL_ERROR
  | NUMBER_OF_ARGUMENTS_DOESNT_MATCH
  | INCORRECT_FILE_NAME
  | BAD_ARGUMENTS
  | foreign (code : Nat)
  deriving DecidableEq, Repr

/-- What a call can raise: a `DB::Exception` (message and code), or the failure
of a positional access outside the container (`at` out of range, `operator[]`
or `front` past the end). -/
inductive Exception where
  | mk (message : String) (code : ErrorCode)
  | out_of_range (site : String)
  deriving DecidableEq, Repr

/-- The code of an exception, when it is a `DB::Exception`. -/
def Exception.code : Exception → Option ErrorCode
  | .mk _ c => some c
  | .out_of_range _ => none

/-! ## Syntax trees -/

/-- The dynamically typed value held by a literal node. -/
inductive Field where
  | Null
  | UInt64 (n : Nat)
  | Int64 (i : Int)
  | String (s : String)
  deriving DecidableEq, Repr

/-- A syntax tree node: either an `ASTLiteral` carrying a `Field`, or any other
node kind, of which only the identity and the `children` vector matter here. -/
inductive IAST where
  | ASTLiteral (value : Field)
  | node (id : String) (children : List IAST)
  deriving Repr

/-- The member `IAST::children`; a literal node has none. -/
def IAST.children : IAST → List IAST
  | .ASTLiteral _ => []
  | .node _ cs => cs

/-- The tree after `children` has been overwritten through the reference the
source holds to it (`ASTs & args = ...->children`). -/
def IAST.withChildren : IAST → List IAST → IAST
  | .ASTLiteral v, _ => .ASTLiteral v
  | .node id _, cs => .node id cs

/-! ## Schemas, sources, storages -/

/-- One column: name and type name. -/
structure NameAndTypePair where
  name : String
  type : String
  deriving DecidableEq, Repr

abbrev NamesAndTypesList := List NameAndTypePair

/-- A `Block` as far as this file looks at it: its columns' names and types. -/
structure Block where
  getNamesAndTypesList : NamesAndTypesList
  deriving DecidableEq, Repr

/-- An output port of a processor; `getHeader` is its header block. -/
structure OutputPort where
  getHeader : Block
  deriving DecidableEq, Repr

/-- The processor returned by `createSourceFromFile`; `getOutputs` is its list
of output ports. -/
structure Source where
  getOutputs : List OutputPort
  deriving DecidableEq, Repr

/-- Result of `ColumnsDescription{names_and_types}`: the columns in the order given. -/
structure ColumnsDescription where
  columns : NamesAndTypesList
  deriving DecidableEq, Repr

/-- A storage handle. -/
structure StoragePtr where
  id : Nat
  deriving DecidableEq, Repr

abbrev Strings := List String

/-! ## The world: object members and calls that leave the translation unit -/

/-- The data members of `ITableFunctionFileLike` assigned by `parseArguments`
and read by the two `const` members. -/
structure ITableFunctionFileLike where
  filename : String
  format : String
  structure_ : String
  compression_method : String
  deriving DecidableEq, Repr

/-- A call that leaves the translation unit, with the arguments it was given. -/
inductive Event where
  | evaluateConstantExpressionOrIdentifierAsLiteral (arg : IAST)
  | getUserFilesPath
  | getPathsList (table_path user_files_path : String) (total_bytes_to_read : Nat)
  | createSourceFromFile (file_name : String)
  | parseColumnsListFromString (structure_ : String)
  | getStorage (source format : String) (columns : ColumnsDescription)
      (table_name compression_method : String)
  | startup (storage : StoragePtr)
  deriving Repr

/-- The object `*this` and the calls made so far, oldest first. -/
structure World where
  self : ITableFunctionFileLike
  trace : List Event
  deriving Repr

/-- A computation that may throw and that reads and writes the world. -/
def M (α : Type) : Type := World → Except Exception α × World

/-- Returning a value. -/
def M.pure {α : Type} (a : α) : M α := fun w => (.ok a, w)

/-- Sequencing; a throw in `x` skips `f`. -/
def M.bind {α β : Type} (x : M α) (f : α → M β) : M β := fun w =>
  match x w with
  | (.ok a, w') => f a w'
  | (.error e, w') => (.error e, w')

instance : Monad M where
  pure := M.pure
  bind := M.bind

/-- The statement `throw e`. -/
def M.throw {α : Type} (e : Exception) : M α := fun w => (.error e, w)

/-- Reading the members of `*this`. -/
def M.getSelf : M ITableFunctionFileLike := fun w => (.ok w.self, w)

/-- Assigning to members of `*this`. -/
def M.modifySelf (f : ITableFunctionFileLike → ITableFunctionFileLike) : M Unit :=
  fun w => (.ok (), { w with self := f w.self })

/-- A call to code outside the translation unit: it is recorded, then it
returns or throws what the collaborator returns or throws. -/
def M.call {α : Type} (ev : Event) (r : Except Exception α) : M α :=
  fun w => (r, { w with trace := w.trace ++ [ev] })

/-- The code outside the translation unit that is reached through free
functions, static members and the `ContextPtr`. -/
structure Context where
  /-- Source call `evaluateConstantExpressionOrIdentifierAsLiteral(arg, context)`. -/
  evaluateConstantExpressionOrIdentifierAsLiteral : IAST → Except Exception IAST
  /-- What `as<ASTLiteral &>()` throws on a node that is not a literal. -/
  bad_cast : IAST → Exception
  /-- What `safeGet<String>()` throws on a field that holds no string. -/
  bad_get : Field → Exception
  /-- Source call `ast_function->formatForErrorMessage()`. -/
  formatForErrorMessage : IAST → String
  /-- Source call `context->getUserFilesPath()`. -/
  getUserFilesPath : String
  /-- Source call `StorageFile::getPathsList(table_path, user_files_path, context, total_bytes_to_read)`:
  the paths and the value left in `total_bytes_to_read`. -/
  getPathsList : String → String → Nat → Except Exception (Strings × Nat)
  /-- Source call `StorageDistributedDirectoryMonitor::createSourceFromFile(file_name)`. -/
  createSourceFromFile : String → Except Exception Source
  /-- Source call `parseColumnsListFromString(structure, context)`. -/
  parseColumnsListFromString : String → Except Exception ColumnsDescription
  /-- Source call `storage->startup()`. -/
  startup : StoragePtr → Except Exception Unit

/-- The virtual members a concrete file-like table function supplies. -/
structure VTable where
  /-- Source call `getName()`. -/
  getName : String
  /-- Source call `getStorage(source, format, columns, global_context, table_name, compression_method)`. -/
  getStorage : String → String → ColumnsDescription → String → String →
    Except Exception StoragePtr

/-- Modelled from the spec: the declaration of the class is not in the
translation unit; a freshly constructed object has an empty `filename`, `format`
and `structure`, and `compression` is the sentinel "auto". -/
def ITableFunctionFileLike.fresh : ITableFunctionFileLike :=
  { filename := "", format := "", structure_ := "", compression_method := "auto" }

/-! ## `parseArguments` -/

/-- Source expression `node->as<ASTLiteral &>().value.safeGet<String>()`. -/
def literalString (ctx : Context) (node : IAST) : M String :=
  match node with
  | .ASTLiteral (.String s) => M.pure s
  | .ASTLiteral v => M.throw (ctx.bad_get v)
  | n => M.throw (ctx.bad_cast n)

/-- Lines 63-64: `for (auto & arg : args) arg = evaluate...(arg, context);`.
The result is the vector `args` after the loop.  The source overwrites the
caller's tree in place; here the rewritten vector is a value, and the tree is
rebuilt from it where the source reads the tree again (line 84).  A throw of the
reducer ends the loop at that argument. -/
def reduceArgs (ctx : Context) : List IAST → M (List IAST)
  | [] => M.pure []
  | arg :: rest => do
    let arg' ← M.call (.evaluateConstantExpressionOrIdentifierAsLiteral arg)
      (ctx.evaluateConstantExpressionOrIdentifierAsLiteral arg)
    let rest' ← reduceArgs ctx rest
    M.pure (arg' :: rest')

/-- Positional access `v[i]`; the source never checks the index itself. -/
def index {α : Type} (site : String) (v : List α) (i : Nat) : M α :=
  match v.get? i with
  | some a => M.pure a
  | none => M.throw (.out_of_range site)

/-- Member function `ITableFunctionFileLike::parseArguments`, lines 50-88. -/
def parseArguments (vt : VTable) (ctx : Context) (ast_function : IAST) : M Unit := do
  let args_func := ast_function.children
  if args_func.length ≠ 1 then
    M.throw (.mk ("Table function '" ++ vt.getName ++ "' must have arguments.")
      .LOGICAL_ERROR)
  else do
  let list_node ← index "args_func.at(0)" args_func 0
  let args := list_node.children
  if args.length < 2 then
    M.throw (.mk ("Table function '" ++ vt.getName ++ "' requires at least 2 arguments")
      .NUMBER_OF_ARGUMENTS_DOESNT_MATCH)
  else do
  let args ← reduceArgs ctx args
  let a0 ← index "args[0]" args 0
  let filename ← literalString ctx a0
  M.modifySelf (fun o => { o with filename := filename })
  let a1 ← index "args[1]" args 1
  let format ← literalString ctx a1
  M.modifySelf (fun o => { o with format := format })
  if args.length = 2 ∧ vt.getName = "file" then
    if format = "Distributed" then
      M.pure ()
    else
      M.throw (.mk ("Table function '" ++ vt.getName ++
        "' allows 2 arguments only for Distributed format.")
        .NUMBER_OF_ARGUMENTS_DOESNT_MATCH)
  else do
  if args.length ≠ 3 ∧ args.length ≠ 4 then
    M.throw (.mk ("Table function '" ++ vt.getName ++
      "' requires 3 or 4 arguments: filename, format, structure and compression method (default auto).")
      .NUMBER_OF_ARGUMENTS_DOESNT_MATCH)
  else do
  let a2 ← index "args[2]" args 2
  let structure_ ← literalString ctx a2
  M.modifySelf (fun o => { o with structure_ := structure_ })
  if structure_.isEmpty then
    M.throw (.mk ("Table structure is empty for table function '" ++
      ctx.formatForErrorMessage
        (ast_function.withChildren [list_node.withChildren args]) ++ "'")
      .BAD_ARGUMENTS)
  else do
  if args.length = 4 then do
    let a3 ← index "args[3]" args 3
    let compression_method ← literalString ctx a3
    M.modifySelf (fun o => { o with compression_method := compression_method })
  else
    M.pure ()

/-! ## `getActualTableStructure` and `executeImpl` -/

/-- Member function `ITableFunctionFileLike::getActualTableStructure`, lines 98-110. -/
def getActualTableStructure (ctx : Context) : M ColumnsDescription := do
  let o ← M.getSelf
  if o.structure_.isEmpty then do
    let total_bytes_to_read := 0
    let user_files_path ← M.call .getUserFilesPath (.ok ctx.getUserFilesPath)
    let (paths, _) ← M.call (.getPathsList o.filename user_files_path total_bytes_to_read)
      (ctx.getPathsList o.filename user_files_path total_bytes_to_read)
    if paths.isEmpty then
      M.throw (.mk
        "Cannot get table structure from file, because no files match specified name"
        .INCORRECT_FILE_NAME)
    else do
    let path ← index "paths[0]" paths 0
    let read_stream ← M.call (.createSourceFromFile path) (ctx.createSourceFromFile path)
    let port ← index "getOutputs().front()" read_stream.getOutputs 0
    M.pure { columns := port.getHeader.getNamesAndTypesList }
  else
    M.call (.parseColumnsListFromString o.structure_)
      (ctx.parseColumnsListFromString o.structure_)

/-- Member function `ITableFunctionFileLike::executeImpl`, lines 90-96; the unnamed parameters
`ast_function` and `cached_columns` are not read. -/
def executeImpl (vt : VTable) (ctx : Context) (table_name : String) : M StoragePtr := do
  let columns ← getActualTableStructure ctx
  let o ← M.getSelf
  let storage ← M.call
    (.getStorage o.filename o.format columns table_name o.compression_method)
    (vt.getStorage o.filename o.format columns table_name o.compression_method)
  M.call (.startup storage) (ctx.startup storage)
  M.pure storage

/-! ## Concrete calls used to exercise the definitions -/

/-- The literal node `'s'`. -/
def lit (s : String) : IAST := .ASTLiteral (.String s)

/-- The call node `name(args...)`: one child, the expression list of the arguments. -/
def callNode (name : String) (args : List IAST) : IAST :=
  .node ("Function_" ++ name) [.node "ExpressionList" args]

/-- A reducer for concrete runs: a literal is its own value, a childless
identifier node becomes the string literal of its name, anything else is not a
constant expression. -/
def sampleReduce : IAST → Except Exception IAST
  | .ASTLiteral v => .ok (.ASTLiteral v)
  | .node id [] => .ok (.ASTLiteral (.String id))
  | .node id _ => .error (.mk ("Not a constant expression: " ++ id) (.foreign 36))

/-- A context for concrete runs in which no file matches any pattern and the
column-list grammar accepts exactly the text `id UInt32`. -/
def sampleContext : Context where
  evaluateConstantExpressionOrIdentifierAsLiteral := sampleReduce
  bad_cast := fun _ => .mk "Bad cast" .LOGICAL_ERROR
  bad_get := fun _ => .mk "Bad get" (.foreign 170)
  formatForErrorMessage := fun _ => "<call>"
  getUserFilesPath := "/user_files/"
  getPathsList := fun _ _ n => .ok ([], n)
  createSourceFromFile := fun _ => .error (.mk "Cannot open file" (.foreign 76))
  parseColumnsListFromString := fun s =>
    if s = "id UInt32" then .ok { columns := [{ name := "id", type := "UInt32" }] }
    else .error (.mk "Syntax error" (.foreign 62))
  startup := fun _ => .ok ()

/-- The virtual members of a table function called `name`, whose storages are
all the handle 7. -/
def sampleVTable (name : String) : VTable where
  getName := name
  getStorage := fun _ _ _ _ _ => .ok { id := 7 }

/-- A world whose object is freshly constructed and in which nothing was called. -/
def World.fresh : World := { self := ITableFunctionFileLike.fresh, trace := [] }

/-- The object as `file('missing/*.csv', 'CSV', 'id UInt32', 'gzip')` leaves it,
before anything else is called. -/
def World.explicitStructure : World :=
  { self := { filename := "missing/*.csv", format := "CSV", structure_ := "id UInt32",
              compression_method := "gzip" },
    trace := [] }

/-- The object as the shorthand `file('missing/*.csv', 'Distributed')` leaves a
freshly constructed object, before anything else is called. -/
def World.shorthand : World :=
  { self := { ITableFunctionFileLike.fresh with
      filename := "missing/*.csv", format := "Distributed" },
    trace := [] }

/-- A source with one output port whose header has the given columns. -/
def sampleSource (columns : NamesAndTypesList) : Source :=
  { getOutputs := [{ getHeader := { getNamesAndTypesList := columns } }] }

/-- A context for concrete runs in which every pattern expands to two files with
different headers. -/
def inferContext : Context :=
  { sampleContext with
    getPathsList := fun _ _ n => .ok (["shard1/1.bin", "shard1/2.bin"], n + 4096)
    createSourceFromFile := fun path =>
      if path = "shard1/1.bin" then
        .ok (sampleSource [{ name := "id", type := "UInt32" }])
      else
        .ok (sampleSource [{ name := "name", type := "String" }]) }

/-- The object as the shorthand `file('shard1/*.bin', 'Distributed')` leaves a
freshly constructed object, before anything else is called. -/
def World.inferred : World :=
  { self := { ITableFunctionFileLike.fresh with
      filename := "shard1/*.bin", format := "Distributed" },
    trace := [] }

/-- A context that differs from `inferContext` in the paths after the first and
in the byte estimate. -/
def inferContextOtherTail : Context :=
  { inferContext with
    getPathsList := fun _ _ n => .ok (["shard1/1.bin", "shard9/7.bin", "shard9/8.bin"], n + 1) }

/-! ## Vocabulary of the statements -/

/-- The events of reducing `args` one after the other. -/
def reduceEvents (args : List IAST) : List Event :=
  args.map Event.evaluateConstantExpressionOrIdentifierAsLiteral

/-- The arguments `args` reduce, one by one, to the string literals `lits`. -/
def reduceToStrings (ctx : Context) (args : List IAST) (lits : List String) : Prop :=
  args.map ctx.evaluateConstantExpressionOrIdentifierAsLiteral =
    lits.map (fun s => Except.ok (lit s))

/-- The world after the loop and the assignments of lines 66-67. -/
def afterFormat (w : World) (args : List IAST) (s0 s1 : String) : World :=
  { self := { w.self with filename := s0, format := s1 },
    trace := w.trace ++ reduceEvents args }

/-- The world after the assignment of line 80. -/
def afterStructure (w : World) (args : List IAST) (s0 s1 s2 : String) : World :=
  { self := { w.self with filename := s0, format := s1, structure_ := s2 },
    trace := w.trace ++ reduceEvents args }

/-- The calls made between the world `before` and the later world `after`. -/
def eventsSince (before after : World) : List Event :=
  after.trace.drop before.trace.length

/-- Whether the call is one to the constant-expression reducer. -/
def Event.isReduce : Event → Bool
  | .evaluateConstantExpressionOrIdentifierAsLiteral _ => true
  | _ => false

/-- Whether the call is one to the path expander. -/
def Event.isGetPathsList : Event → Bool
  | .getPathsList _ _ _ => true
  | _ => false

/-- Whether the call opens a decoding source. -/
def Event.isCreateSourceFromFile : Event → Bool
  | .createSourceFromFile _ => true
  | _ => false

/-- Whether the call is one to the storage factory `getStorage`. -/
def Event.isGetStorage : Event → Bool
  | .getStorage _ _ _ _ _ => true
  | _ => false

/-- Whether the call is `storage->startup()`. -/
def Event.isStartup : Event → Bool
  | .startup _ => true
  | _ => false

/-- A computation that calls nothing outside the translation unit. -/
def KeepsTrace {α : Type} (x : M α) : Prop := ∀ w, (x w).2.trace = w.trace

/-- Lines 66-88 of `parseArguments`: what follows the loop of lines 63-64, as a
function of the vector `args` the loop has left. -/
def parseReducedArguments (vt : VTable) (ctx : Context) (ast_function list_node : IAST)
    (args : List IAST) : M Unit := do
  let a0 ← index "args[0]" args 0
  let filename ← literalString ctx a0
  M.modifySelf (fun o => { o with filename := filename })
  let a1 ← index "args[1]" args 1
  let format ← literalString ctx a1
  M.modifySelf (fun o => { o with format := format })
  if args.length = 2 ∧ vt.getName = "file" then
    if format = "Distributed" then
      M.pure ()
    else
      M.throw (.mk ("Table function '" ++ vt.getName ++
        "' allows 2 arguments only for Distributed format.")
        .NUMBER_OF_ARGUMENTS_DOESNT_MATCH)
  else do
  if args.length ≠ 3 ∧ args.length ≠ 4 then
    M.throw (.mk ("Table function '" ++ vt.getName ++
      "' requires 3 or 4 arguments: filename, format, structure and compression method (default auto).")
      .NUMBER_OF_ARGUMENTS_DOESNT_MATCH)
  else do
  let a2 ← index "args[2]" args 2
  let structure_ ← literalString ctx a2
  M.modifySelf (fun o => { o with structure_ := structure_ })
  if structure_.isEmpty then
    M.throw (.mk ("Table structure is empty for table function '" ++
      ctx.formatForErrorMessage
        (ast_function.withChildren [list_node.withChildren args]) ++ "'")
      .BAD_ARGUMENTS)
  else do
  if args.length = 4 then do
    let a3 ← index "args[3]" args 3
    let compression_method ← literalString ctx a3
    M.modifySelf (fun o => { o with compression_method := compression_method })
  else
    M.pure ()

/-- Modelled from the spec: the caller that resolves a table function is not in
the translation unit; by section 4.3 it runs argument parsing, then `executeImpl`
(schema resolution, storage construction, startup), and a failure of either
aborts the resolution. -/
def resolve (vt : VTable) (ctx : Context) (ast_function : IAST) (table_name : String) :
    M StoragePtr := do
  parseArguments vt ctx ast_function
  executeImpl vt ctx table_name

/-- The arguments of each call that opens a decoding source, in order. -/
def decoderCalls (evs : List Event) : List (List String) :=
  evs.filterMap fun
    | .createSourceFromFile file_name => some [file_name]
    | _ => none

/-- Modelled from the spec: the decoder call of sections 4.2 and 6,
`FormatDecoderFactory.open(format, path)`, which is keyed by the format; given
as the list of its arguments. -/
def specDecoderCall (format path : String) : List String := [format, path]

/-- A computation that never ends in the failure of a positional access. -/
def InRange {α : Type} (x : M α) : Prop :=
  ∀ w site, (x w).1 ≠ .error (.out_of_range site)

/-- The code outside the translation unit throws `DB::Exception`s only: none of
its failures is that of a positional access of this file. -/
def Context.throwsOnlyExceptions (ctx : Context) : Prop :=
  (∀ arg site, ctx.evaluateConstantExpressionOrIdentifierAsLiteral arg ≠
    .error (.out_of_range site)) ∧
  (∀ node site, ctx.bad_cast node ≠ .out_of_range site) ∧
  (∀ value site, ctx.bad_get value ≠ .out_of_range site) ∧
  (∀ table_path user_files_path total site,
    ctx.getPathsList table_path user_files_path total ≠ .error (.out_of_range site)) ∧
  (∀ file_name site, ctx.createSourceFromFile file_name ≠ .error (.out_of_range site)) ∧
  (∀ text site, ctx.parseColumnsListFromString text ≠ .error (.out_of_range site))

/-- A way to carry out the positional accesses of the file: the site, the
container and the position give the element or a failure. -/
structure Indexing where
  get : {α : Type} → String → List α → Nat → M α

/-- The accesses as the file performs them. -/
def Indexing.plain : Indexing where
  get := fun site v i => index site v i

/-- The accesses with a trap at site `s`: a run that reaches the access at `s`
stops there with the failure labelled `s`, whatever the container holds and
whatever the position; every other access is as the file performs it. -/
def Indexing.trap (s : String) : Indexing where
  get := fun site v i =>
    if site = s then M.throw (.out_of_range site) else index site v i

/-- Lines 66-88, as `parseReducedArguments`, with the positional accesses
carried out by `ix`. -/
def parseReducedArgumentsWith (ix : Indexing) (vt : VTable) (ctx : Context)
    (ast_function list_node : IAST) (args : List IAST) : M Unit := do
  let a0 ← ix.get "args[0]" args 0
  let filename ← literalString ctx a0
  M.modifySelf (fun o => { o with filename := filename })
  let a1 ← ix.get "args[1]" args 1
  let format ← literalString ctx a1
  M.modifySelf (fun o => { o with format := format })
  if args.length = 2 ∧ vt.getName = "file" then
    if format = "Distributed" then
      M.pure ()
    else
      M.throw (.mk ("Table function '" ++ vt.getName ++
        "' allows 2 arguments only for Distributed format.")
        .NUMBER_OF_ARGUMENTS_DOESNT_MATCH)
  else do
  if args.length ≠ 3 ∧ args.length ≠ 4 then
    M.throw (.mk ("Table function '" ++ vt.getName ++
      "' requires 3 or 4 arguments: filename, format, structure and compression method (default auto).")
      .NUMBER_OF_ARGUMENTS_DOESNT_MATCH)
  else do
  let a2 ← ix.get "args[2]" args 2
  let structure_ ← literalString ctx a2
  M.modifySelf (fun o => { o with structure_ := structure_ })
  if structure_.isEmpty then
    M.throw (.mk ("Table structure is empty for table function '" ++
      ctx.formatForErrorMessage
        (ast_function.withChildren [list_node.withChildren args]) ++ "'")
      .BAD_ARGUMENTS)
  else do
  if args.length = 4 then do
    let a3 ← ix.get "args[3]" args 3
    let compression_method ← literalString ctx a3
    M.modifySelf (fun o => { o with compression_method := compression_method })
  else
    M.pure ()

/-- Lines 50-88, as `parseArguments`, with the positional accesses carried out
by `ix`. -/
def parseArgumentsWith (ix : Indexing) (vt : VTable) (ctx : Context)
    (ast_function : IAST) : M Unit := do
  let args_func := ast_function.children
  if args_func.length ≠ 1 then
    M.throw (.mk ("Table function '" ++ vt.getName ++ "' must have arguments.")
      .LOGICAL_ERROR)
  else do
  let list_node ← ix.get "args_func.at(0)" args_func 0
  let args := list_node.children
  if args.length < 2 then
    M.throw (.mk ("Table function '" ++ vt.getName ++ "' requires at least 2 arguments")
      .NUMBER_OF_ARGUMENTS_DOESNT_MATCH)
  else do
  let args ← reduceArgs ctx args
  parseReducedArgumentsWith ix vt ctx ast_function list_node args

/-- Lines 98-110, as `getActualTableStructure`, with the positional accesses
carried out by `ix`. -/
def getActualTableStructureWith (ix : Indexing) (ctx : Context) : M ColumnsDescription := do
  let o ← M.getSelf
  if o.structure_.isEmpty then do
    let total_bytes_to_read := 0
    let user_files_path ← M.call .getUserFilesPath (.ok ctx.getUserFilesPath)
    let (paths, _) ← M.call (.getPathsList o.filename user_files_path total_bytes_to_read)
      (ctx.getPathsList o.filename user_files_path total_bytes_to_read)
    if paths.isEmpty then
      M.throw (.mk
        "Cannot get table structure from file, because no files match specified name"
        .INCORRECT_FILE_NAME)
    else do
    let path ← ix.get "paths[0]" paths 0
    let read_stream ← M.call (.createSourceFromFile path) (ctx.createSourceFromFile path)
    let port ← ix.get "getOutputs().front()" read_stream.getOutputs 0
    M.pure { columns := port.getHeader.getNamesAndTypesList }
  else
    M.call (.parseColumnsListFromString o.structure_)
      (ctx.parseColumnsListFromString o.structure_)

/-- The run of `run` from the world `w` reaches the positional access at site
`s`: with the trap set at `s`, it ends in the failure labelled `s`. -/
def reaches {α : Type} (s : String) (run : Indexing → M α) (w : World) : Prop :=
  (run (Indexing.trap s) w).1 = .error (.out_of_range s)

/-- A run of `x` that ends in the failure labelled `s` does so only when `G`
holds. -/
def Only {α : Type} (s : String) (G : Prop) (x : M α) : Prop :=
  ∀ w, (x w).1 = .error (.out_of_range s) → G

/-- A context in which every pattern expands to one file, whose source has no
output port. -/
def portlessContext : Context :=
  { sampleContext with
    getPathsList := fun _ _ n => .ok (["shard1/1.bin"], n + 512)
    createSourceFromFile := fun _ => .ok { getOutputs := [] } }

/-! ## Lemmas on the monad -/

theorem M.bind_eq {α β : Type} (x : M α) (f : α → M β) (w : World) :
    (x >>= f) w = match x w with
      | (.ok a, w') => f a w'
      | (.error e, w') => (.error e, w') := rfl

theorem M.bind_ok {α β : Type} (x : M α) (f : α → M β) (w w' : World) (a : α)
    (h : x w = (.ok a, w')) : (x >>= f) w = f a w' := by
  rw [M.bind_eq, h]

theorem M.bind_error {α β : Type} (x : M α) (f : α → M β) (w w' : World) (e : Exception)
    (h : x w = (.error e, w')) : (x >>= f) w = (.error e, w') := by
  rw [M.bind_eq, h]

/-- When every argument reduces, the loop returns the reduced arguments in
order and has called the reducer once per argument, in order. -/
theorem reduceArgs_ok (ctx : Context) (args rs : List IAST)
    (h : args.map ctx.evaluateConstantExpressionOrIdentifierAsLiteral = rs.map Except.ok)
    (w : World) :
    reduceArgs ctx args w = (.ok rs, { w with trace := w.trace ++ reduceEvents args }) := by
  induction args generalizing rs w with
  | nil =>
    cases rs with
    | nil => simp [reduceArgs, M.pure, reduceEvents]
    | cons r rs => simp at h
  | cons a args ih =>
    cases rs with
    | nil => simp at h
    | cons r rs =>
      simp only [List.map_cons, List.cons.injEq] at h
      simp [reduceArgs, M.bind_eq, M.call, h.1, ih rs h.2, M.pure, reduceEvents]

theorem reduceArgs_strings (ctx : Context) (args : List IAST) (lits : List String)
    (h : reduceToStrings ctx args lits) (w : World) :
    reduceArgs ctx args w =
      (.ok (lits.map lit), { w with trace := w.trace ++ reduceEvents args }) := by
  apply reduceArgs_ok
  rw [List.map_map]
  exact h

theorem reduceToStrings_length (ctx : Context) (args : List IAST) (lits : List String)
    (h : reduceToStrings ctx args lits) : lits.length = args.length := by
  have := congrArg List.length h
  simpa using this.symm

/-- When the loop returns, every argument reduced, in order, and the reducer was
called once per argument. -/
theorem reduceArgs_inv (ctx : Context) (args rs : List IAST) (w w' : World)
    (h : reduceArgs ctx args w = (.ok rs, w')) :
    args.map ctx.evaluateConstantExpressionOrIdentifierAsLiteral = rs.map Except.ok ∧
    w' = { w with trace := w.trace ++ reduceEvents args } := by
  induction args generalizing rs w w' with
  | nil =>
    simp only [reduceArgs, M.pure, Prod.mk.injEq, Except.ok.injEq] at h
    obtain ⟨h1, h2⟩ := h
    subst h1 h2
    simp [reduceEvents]
  | cons a args ih =>
    simp only [reduceArgs, M.bind_eq, M.call, M.pure] at h
    cases ha : ctx.evaluateConstantExpressionOrIdentifierAsLiteral a with
    | error e => simp [ha] at h
    | ok r =>
      simp only [ha] at h
      cases hrest : reduceArgs ctx args { w with trace := w.trace ++
          [Event.evaluateConstantExpressionOrIdentifierAsLiteral a] } with
      | mk res w1 =>
        cases res with
        | error e => simp [hrest] at h
        | ok rs1 =>
          simp only [hrest, Prod.mk.injEq, Except.ok.injEq] at h
          obtain ⟨h1, h2⟩ := h
          obtain ⟨i1, i2⟩ := ih rs1 _ w1 hrest
          subst h1 h2
          simp [ha, i1, i2, reduceEvents]

/-- Reading a string out of a node succeeds exactly on string literals, and
never changes the world. -/
theorem literalString_ok (ctx : Context) (n : IAST) (s : String) (w w' : World)
    (h : literalString ctx n w = (.ok s, w')) : n = lit s ∧ w' = w := by
  rcases n with (_ | _ | _ | t) | ⟨id, cs⟩ <;>
    simp [literalString, M.throw, M.pure, lit] at h ⊢
  exact ⟨h.1, h.2.symm⟩

theorem literalString_world (ctx : Context) (n : IAST) (w : World) :
    (literalString ctx n w).2 = w := by
  rcases n with (_ | _ | _ | t) | ⟨id, cs⟩ <;> simp [literalString, M.throw, M.pure]

/-! ## The outcome of `parseArguments` on string literals, arity by arity -/

theorem parseArguments_arity2 (vt : VTable) (ctx : Context)
    (ast_function list_node : IAST) (s0 s1 : String) (w : World)
    (hfunc : ast_function.children = [list_node])
    (hred : reduceToStrings ctx list_node.children [s0, s1]) :
    parseArguments vt ctx ast_function w =
      if vt.getName = "file" then
        if s1 = "Distributed" then (.ok (), afterFormat w list_node.children s0 s1)
        else (.error (.mk ("Table function '" ++ vt.getName ++
            "' allows 2 arguments only for Distributed format.")
            .NUMBER_OF_ARGUMENTS_DOESNT_MATCH), afterFormat w list_node.children s0 s1)
      else (.error (.mk ("Table function '" ++ vt.getName ++
          "' requires 3 or 4 arguments: filename, format, structure and compression method (default auto).")
          .NUMBER_OF_ARGUMENTS_DOESNT_MATCH), afterFormat w list_node.children s0 s1) := by
  have hr := reduceArgs_strings ctx _ _ hred w
  have hl := reduceToStrings_length ctx _ _ hred
  simp only [List.length_cons, List.length_nil] at hl
  by_cases hn : vt.getName = "file" <;> by_cases hd : s1 = "Distributed" <;>
    simp [parseArguments, hfunc, index, M.bind_eq, M.throw, M.pure, hr, lit,
      literalString, M.modifySelf, hn, hd, ← hl, afterFormat]

theorem parseArguments_arity3 (vt : VTable) (ctx : Context)
    (ast_function list_node : IAST) (s0 s1 s2 : String) (w : World)
    (hfunc : ast_function.children = [list_node])
    (hred : reduceToStrings ctx list_node.children [s0, s1, s2]) :
    parseArguments vt ctx ast_function w =
      if s2.isEmpty then
        (.error (.mk ("Table structure is empty for table function '" ++
          ctx.formatForErrorMessage (ast_function.withChildren
            [list_node.withChildren [lit s0, lit s1, lit s2]]) ++ "'")
          .BAD_ARGUMENTS), afterStructure w list_node.children s0 s1 s2)
      else (.ok (), afterStructure w list_node.children s0 s1 s2) := by
  have hr := reduceArgs_strings ctx _ _ hred w
  have hl := reduceToStrings_length ctx _ _ hred
  simp only [List.length_cons, List.length_nil] at hl
  by_cases he : s2.isEmpty <;>
    simp [parseArguments, hfunc, index, M.bind_eq, M.throw, M.pure, hr, lit,
      literalString, M.modifySelf, he, ← hl, afterStructure]

theorem parseArguments_arity4 (vt : VTable) (ctx : Context)
    (ast_function list_node : IAST) (s0 s1 s2 s3 : String) (w : World)
    (hfunc : ast_function.children = [list_node])
    (hred : reduceToStrings ctx list_node.children [s0, s1, s2, s3]) :
    parseArguments vt ctx ast_function w =
      if s2.isEmpty then
        (.error (.mk ("Table structure is empty for table function '" ++
          ctx.formatForErrorMessage (ast_function.withChildren
            [list_node.withChildren [lit s0, lit s1, lit s2, lit s3]]) ++ "'")
          .BAD_ARGUMENTS), afterStructure w list_node.children s0 s1 s2)
      else (.ok (), { afterStructure w list_node.children s0 s1 s2 with
        self := { filename := s0, format := s1, structure_ := s2,
                  compression_method := s3 } }) := by
  have hr := reduceArgs_strings ctx _ _ hred w
  have hl := reduceToStrings_length ctx _ _ hred
  simp only [List.length_cons, List.length_nil] at hl
  by_cases he : s2.isEmpty <;>
    simp [parseArguments, hfunc, index, M.bind_eq, M.throw, M.pure, hr, lit,
      literalString, M.modifySelf, he, ← hl, afterStructure]

theorem parseArguments_arity5 (vt : VTable) (ctx : Context)
    (ast_function list_node : IAST) (s0 s1 s2 s3 s4 : String) (more : List String)
    (w : World)
    (hfunc : ast_function.children = [list_node])
    (hred : reduceToStrings ctx list_node.children (s0 :: s1 :: s2 :: s3 :: s4 :: more)) :
    parseArguments vt ctx ast_function w =
      (.error (.mk ("Table function '" ++ vt.getName ++
          "' requires 3 or 4 arguments: filename, format, structure and compression method (default auto).")
          .NUMBER_OF_ARGUMENTS_DOESNT_MATCH), afterFormat w list_node.children s0 s1) := by
  have hr := reduceArgs_strings ctx _ _ hred w
  have hl := reduceToStrings_length ctx _ _ hred
  simp only [List.length_cons] at hl
  have h1 : ¬ list_node.children.length < 2 := by omega
  have h2 : list_node.children.length ≠ 2 := by omega
  have h3 : list_node.children.length ≠ 3 := by omega
  have h4 : list_node.children.length ≠ 4 := by omega
  have h5 : more.length + 1 + 1 + 1 + 1 + 1 = list_node.children.length := hl
  simp [parseArguments, hfunc, index, M.bind_eq, M.throw, M.pure, hr, lit,
      literalString, M.modifySelf, h1, h2, h3, h4, h5, afterFormat, List.getElem?_cons_zero]

theorem literalString_lit (ctx : Context) (s : String) (w : World) :
    literalString ctx (lit s) w = (.ok s, w) := rfl

/-- A node is a string literal, or reading a string out of it throws. -/
theorem literalString_cases (ctx : Context) (n : IAST) :
    (∃ s, n = lit s) ∨ (∃ e, ∀ w, literalString ctx n w = (.error e, w)) := by
  rcases n with (_ | _ | _ | t) | ⟨id, cs⟩
  · exact Or.inr ⟨_, fun _ => rfl⟩
  · exact Or.inr ⟨_, fun _ => rfl⟩
  · exact Or.inr ⟨_, fun _ => rfl⟩
  · exact Or.inl ⟨t, rfl⟩
  · exact Or.inr ⟨_, fun _ => rfl⟩

/-- A call that `parseArguments` accepts has exactly one argument list, of 2, 3
or 4 arguments, and each of them reduced to a string literal. -/
theorem parseArguments_ok_inv (vt : VTable) (ctx : Context) (ast_function : IAST)
    (w : World) (hok : (parseArguments vt ctx ast_function w).1 = .ok ()) :
    ∃ list_node lits, ast_function.children = [list_node] ∧
      reduceToStrings ctx list_node.children lits ∧
      (lits.length = 2 ∨ lits.length = 3 ∨ lits.length = 4) := by
  by_cases h1 : ast_function.children.length ≠ 1
  · simp [parseArguments, h1, M.throw] at hok
  · obtain ⟨list_node, hfunc⟩ := List.length_eq_one.mp (not_not.mp h1)
    refine ⟨list_node, ?_⟩
    by_cases h2 : list_node.children.length < 2
    · simp [parseArguments, hfunc, index, M.bind_eq, M.throw, M.pure, h2] at hok
    · cases hr : reduceArgs ctx list_node.children w with
      | mk res w1 =>
        cases res with
        | error e =>
          simp [parseArguments, hfunc, index, M.bind_eq, M.throw, M.pure, h2, hr] at hok
        | ok rs =>
          obtain ⟨hm, -⟩ := reduceArgs_inv ctx _ _ _ _ hr
          have hlen : list_node.children.length = rs.length := by
            simpa using congrArg List.length hm
          match rs, hr, hm, hlen with
          | [], _, _, hlen => simp only [List.length_nil] at hlen; omega
          | [_], _, _, hlen => simp only [List.length_cons, List.length_nil] at hlen; omega
          | r0 :: r1 :: rest, hr, hm, hlen =>
            rcases literalString_cases ctx r0 with ⟨s0, rfl⟩ | ⟨e, he⟩
            swap
            · simp [parseArguments, hfunc, index, M.bind_eq, M.throw, M.pure, h2, hr, he] at hok
            rcases literalString_cases ctx r1 with ⟨s1, rfl⟩ | ⟨e, he⟩
            swap
            · simp [parseArguments, hfunc, index, M.bind_eq, M.throw, M.pure, h2, hr, he,
                literalString_lit, M.modifySelf] at hok
            match rest, hr, hm, hlen with
            | [], _, hm, _ => exact ⟨[s0, s1], hfunc, hm, Or.inl rfl⟩
            | [r2], hr, hm, hlen =>
              rcases literalString_cases ctx r2 with ⟨s2, rfl⟩ | ⟨e, he⟩
              · exact ⟨[s0, s1, s2], hfunc, hm, Or.inr (Or.inl rfl)⟩
              · simp [parseArguments, hfunc, index, M.bind_eq, M.throw, M.pure, h2, hr, he,
                  literalString_lit, M.modifySelf] at hok
            | [r2, r3], hr, hm, hlen =>
              rcases literalString_cases ctx r2 with ⟨s2, rfl⟩ | ⟨e, he⟩
              swap
              · simp [parseArguments, hfunc, index, M.bind_eq, M.throw, M.pure, h2, hr, he,
                  literalString_lit, M.modifySelf] at hok
              rcases literalString_cases ctx r3 with ⟨s3, rfl⟩ | ⟨e, he⟩
              · exact ⟨[s0, s1, s2, s3], hfunc, hm, Or.inr (Or.inr rfl)⟩
              · by_cases hs : s2.isEmpty = true <;>
                  simp [parseArguments, hfunc, index, M.bind_eq, M.throw, M.pure, h2, hr, he,
                    literalString_lit, M.modifySelf, hs] at hok
            | r2 :: r3 :: r4 :: more, hr, hm, hlen =>
              simp [parseArguments, hfunc, index, M.bind_eq, M.throw, M.pure, h2, hr,
                  literalString_lit, M.modifySelf] at hok

/-! ## Argument parsing: arity rules -/

/-- C1: for the function named "file" called with exactly two arguments that
reduce to the string literals `s0` and `s1`, `parseArguments` returns normally
if and only if `s1` is "Distributed"; then only `filename` and `format` are
assigned; otherwise it throws NUMBER_OF_ARGUMENTS_DOESNT_MATCH. -/
theorem parseArguments_file_two_arguments (vt : VTable) (ctx : Context)
    (ast_function list_node a0 a1 : IAST) (s0 s1 : String) (w : World)
    (hname : vt.getName = "file")
    (hfunc : ast_function.children = [list_node])
    (hargs : list_node.children = [a0, a1])
    (h0 : ctx.evaluateConstantExpressionOrIdentifierAsLiteral a0 = .ok (lit s0))
    (h1 : ctx.evaluateConstantExpressionOrIdentifierAsLiteral a1 = .ok (lit s1)) :
    ((parseArguments vt ctx ast_function w).1 = .ok () ↔ s1 = "Distributed") ∧
    (s1 = "Distributed" →
      (parseArguments vt ctx ast_function w).2.self =
        { w.self with filename := s0, format := s1 }) ∧
    (s1 ≠ "Distributed" →
      (parseArguments vt ctx ast_function w).1 = .error (.mk
        "Table function 'file' allows 2 arguments only for Distributed format."
        .NUMBER_OF_ARGUMENTS_DOESNT_MATCH)) := by
  have hr := reduceArgs_ok ctx [a0, a1] [lit s0, lit s1] (by simp [h0, h1])
  by_cases hd : s1 = "Distributed" <;>
    simp [parseArguments, hfunc, hargs, index, M.bind_eq, M.throw, M.pure, hr, lit,
      literalString, M.modifySelf, hname, hd]

theorem parseArguments_file_two_arguments_witness :
    ((parseArguments (sampleVTable "file") sampleContext
        (callNode "file" [lit "data.csv", lit "Distributed"]) World.fresh).1 = .ok () ↔
      "Distributed" = "Distributed") ∧
    ("Distributed" = "Distributed" →
      (parseArguments (sampleVTable "file") sampleContext
        (callNode "file" [lit "data.csv", lit "Distributed"]) World.fresh).2.self =
        { World.fresh.self with filename := "data.csv", format := "Distributed" }) ∧
    ("Distributed" ≠ "Distributed" →
      (parseArguments (sampleVTable "file") sampleContext
        (callNode "file" [lit "data.csv", lit "Distributed"]) World.fresh).1 = .error (.mk
        "Table function 'file' allows 2 arguments only for Distributed format."
        .NUMBER_OF_ARGUMENTS_DOESNT_MATCH)) :=
  parseArguments_file_two_arguments (sampleVTable "file") sampleContext
    (callNode "file" [lit "data.csv", lit "Distributed"]) (.node "ExpressionList"
      [lit "data.csv", lit "Distributed"]) (lit "data.csv") (lit "Distributed")
    "data.csv" "Distributed" World.fresh rfl rfl rfl rfl rfl

/-- C2: for a function whose name is not "file", a call with exactly two
arguments that reduce to string literals (whatever the second one is) throws
NUMBER_OF_ARGUMENTS_DOESNT_MATCH. -/
theorem parseArguments_other_two_arguments (vt : VTable) (ctx : Context)
    (ast_function list_node a0 a1 : IAST) (s0 s1 : String) (w : World)
    (hname : vt.getName ≠ "file")
    (hfunc : ast_function.children = [list_node])
    (hargs : list_node.children = [a0, a1])
    (h0 : ctx.evaluateConstantExpressionOrIdentifierAsLiteral a0 = .ok (lit s0))
    (h1 : ctx.evaluateConstantExpressionOrIdentifierAsLiteral a1 = .ok (lit s1)) :
    (parseArguments vt ctx ast_function w).1 = .error (.mk
      ("Table function '" ++ vt.getName ++
        "' requires 3 or 4 arguments: filename, format, structure and compression method (default auto).")
      .NUMBER_OF_ARGUMENTS_DOESNT_MATCH) := by
  have hr := reduceArgs_ok ctx [a0, a1] [lit s0, lit s1] (by simp [h0, h1])
  simp [parseArguments, hfunc, hargs, index, M.bind_eq, M.throw, M.pure, hr, lit,
    literalString, M.modifySelf, hname]

theorem parseArguments_other_two_arguments_witness :
    (parseArguments (sampleVTable "s3") sampleContext
      (callNode "s3" [lit "https://bucket/*.parquet", lit "Distributed"]) World.fresh).1 =
    .error (.mk
      ("Table function '" ++ (sampleVTable "s3").getName ++
        "' requires 3 or 4 arguments: filename, format, structure and compression method (default auto).")
      .NUMBER_OF_ARGUMENTS_DOESNT_MATCH) :=
  parseArguments_other_two_arguments (sampleVTable "s3") sampleContext
    (callNode "s3" [lit "https://bucket/*.parquet", lit "Distributed"])
    (.node "ExpressionList" [lit "https://bucket/*.parquet", lit "Distributed"])
    (lit "https://bucket/*.parquet") (lit "Distributed")
    "https://bucket/*.parquet" "Distributed" World.fresh (by decide) rfl rfl rfl rfl

/-- C3: for every function name, a call with exactly one argument-list grouping
whose list has fewer than 2 entries throws NUMBER_OF_ARGUMENTS_DOESNT_MATCH; the
object is not assigned and nothing outside is called. -/
theorem parseArguments_fewer_than_two (vt : VTable) (ctx : Context)
    (ast_function list_node : IAST) (w : World)
    (hfunc : ast_function.children = [list_node])
    (hargs : list_node.children.length < 2) :
    parseArguments vt ctx ast_function w = (.error (.mk
      ("Table function '" ++ vt.getName ++ "' requires at least 2 arguments")
      .NUMBER_OF_ARGUMENTS_DOESNT_MATCH), w) := by
  simp [parseArguments, hfunc, index, M.bind_eq, M.throw, M.pure, hargs]

theorem parseArguments_fewer_than_two_witness :
    parseArguments (sampleVTable "url") sampleContext
      (callNode "url" [lit "http://host/data.csv"]) World.fresh = (.error (.mk
      ("Table function '" ++ (sampleVTable "url").getName ++ "' requires at least 2 arguments")
      .NUMBER_OF_ARGUMENTS_DOESNT_MATCH), World.fresh) :=
  parseArguments_fewer_than_two (sampleVTable "url") sampleContext
    (callNode "url" [lit "http://host/data.csv"])
    (.node "ExpressionList" [lit "http://host/data.csv"]) World.fresh rfl (by decide)

/-- C4: for every function name, a call with exactly 3 or 4 arguments that reduce
to string literals, the third one not empty, is accepted; afterwards `filename`
is the first literal, `format` the second and `structure` the third. -/
theorem parseArguments_three_or_four (vt : VTable) (ctx : Context)
    (ast_function list_node : IAST) (args : List IAST) (s0 s1 s2 : String)
    (more : List String) (w : World)
    (hfunc : ast_function.children = [list_node])
    (hargs : list_node.children = args)
    (hlen : args.length = 3 ∨ args.length = 4)
    (hred : reduceToStrings ctx args (s0 :: s1 :: s2 :: more))
    (hne : s2 ≠ "") :
    (parseArguments vt ctx ast_function w).1 = .ok () ∧
    (parseArguments vt ctx ast_function w).2.self.filename = s0 ∧
    (parseArguments vt ctx ast_function w).2.self.format = s1 ∧
    (parseArguments vt ctx ast_function w).2.self.structure_ = s2 := by
  have hr := reduceArgs_strings ctx args _ hred w
  have hl := reduceToStrings_length ctx args _ hred
  have he : s2.isEmpty = false := by
    rw [Bool.eq_false_iff, ne_eq, String.isEmpty_iff]
    exact hne
  simp only [List.length_cons] at hl
  rcases hlen with h3 | h4
  · have hm : more = [] := List.length_eq_zero.mp (by omega)
    subst hm
    simp [parseArguments, hfunc, hargs, index, M.bind_eq, M.throw, M.pure, hr, lit,
      literalString, M.modifySelf, h3, he]
  · obtain ⟨s3, hm⟩ : ∃ s3, more = [s3] := List.length_eq_one.mp (by omega)
    subst hm
    simp [parseArguments, hfunc, hargs, index, M.bind_eq, M.throw, M.pure, hr, lit,
      literalString, M.modifySelf, h4, he]

theorem parseArguments_three_or_four_witness :
    (parseArguments (sampleVTable "file") sampleContext
      (callNode "file" [lit "data/*.csv", lit "CSV", lit "id UInt32, name String"])
      World.fresh).1 = .ok () ∧
    (parseArguments (sampleVTable "file") sampleContext
      (callNode "file" [lit "data/*.csv", lit "CSV", lit "id UInt32, name String"])
      World.fresh).2.self.filename = "data/*.csv" ∧
    (parseArguments (sampleVTable "file") sampleContext
      (callNode "file" [lit "data/*.csv", lit "CSV", lit "id UInt32, name String"])
      World.fresh).2.self.format = "CSV" ∧
    (parseArguments (sampleVTable "file") sampleContext
      (callNode "file" [lit "data/*.csv", lit "CSV", lit "id UInt32, name String"])
      World.fresh).2.self.structure_ = "id UInt32, name String" :=
  parseArguments_three_or_four (sampleVTable "file") sampleContext
    (callNode "file" [lit "data/*.csv", lit "CSV", lit "id UInt32, name String"])
    (.node "ExpressionList" [lit "data/*.csv", lit "CSV", lit "id UInt32, name String"])
    [lit "data/*.csv", lit "CSV", lit "id UInt32, name String"]
    "data/*.csv" "CSV" "id UInt32, name String" [] World.fresh rfl rfl (Or.inl rfl) rfl
    (by decide)

/-- C5: for every function name, a call with 3 or 4 arguments that reduce to
string literals, the third one empty, throws BAD_ARGUMENTS (the message quotes
the call as it reads after the reduction), and so does not throw
NUMBER_OF_ARGUMENTS_DOESNT_MATCH. -/
theorem parseArguments_empty_structure (vt : VTable) (ctx : Context)
    (ast_function list_node : IAST) (args : List IAST) (s0 s1 : String)
    (more : List String) (w : World)
    (hfunc : ast_function.children = [list_node])
    (hargs : list_node.children = args)
    (hlen : args.length = 3 ∨ args.length = 4)
    (hred : reduceToStrings ctx args (s0 :: s1 :: "" :: more)) :
    (parseArguments vt ctx ast_function w).1 = .error (.mk
      ("Table structure is empty for table function '" ++
        ctx.formatForErrorMessage (ast_function.withChildren
          [list_node.withChildren ((s0 :: s1 :: "" :: more).map lit)]) ++ "'")
      .BAD_ARGUMENTS) ∧
    ∀ message, (parseArguments vt ctx ast_function w).1 ≠
      .error (.mk message .NUMBER_OF_ARGUMENTS_DOESNT_MATCH) := by
  have hr := reduceArgs_strings ctx args _ hred w
  have hl := reduceToStrings_length ctx args _ hred
  have he : "".isEmpty = true := by decide
  simp only [List.length_cons] at hl
  rcases hlen with h3 | h4
  · have hm : more = [] := List.length_eq_zero.mp (by omega)
    subst hm
    simp [parseArguments, hfunc, hargs, index, M.bind_eq, M.throw, M.pure, hr, lit,
      literalString, M.modifySelf, h3, he]
  · obtain ⟨s3, hm⟩ : ∃ s3, more = [s3] := List.length_eq_one.mp (by omega)
    subst hm
    simp [parseArguments, hfunc, hargs, index, M.bind_eq, M.throw, M.pure, hr, lit,
      literalString, M.modifySelf, h4, he]

theorem parseArguments_empty_structure_witness :
    (parseArguments (sampleVTable "hdfs") sampleContext
      (callNode "hdfs" [lit "hdfs://nn/data.csv", lit "CSV", lit ""]) World.fresh).1 =
      .error (.mk "Table structure is empty for table function '<call>'" .BAD_ARGUMENTS) :=
  (parseArguments_empty_structure (sampleVTable "hdfs") sampleContext
    (callNode "hdfs" [lit "hdfs://nn/data.csv", lit "CSV", lit ""])
    (.node "ExpressionList" [lit "hdfs://nn/data.csv", lit "CSV", lit ""])
    [lit "hdfs://nn/data.csv", lit "CSV", lit ""] "hdfs://nn/data.csv" "CSV" []
    World.fresh rfl rfl (Or.inl rfl) rfl).1

/-- C6: when `parseArguments` accepts a call with exactly 4 arguments, the fourth
argument reduced to a string literal and `compression_method` is that literal. -/
theorem parseArguments_four_compression (vt : VTable) (ctx : Context)
    (ast_function list_node a0 a1 a2 a3 : IAST) (w : World)
    (hfunc : ast_function.children = [list_node])
    (hargs : list_node.children = [a0, a1, a2, a3])
    (hok : (parseArguments vt ctx ast_function w).1 = .ok ()) :
    ∃ s3, ctx.evaluateConstantExpressionOrIdentifierAsLiteral a3 = .ok (lit s3) ∧
      (parseArguments vt ctx ast_function w).2.self.compression_method = s3 := by
  obtain ⟨ln, lits, hf, hred, -⟩ := parseArguments_ok_inv vt ctx ast_function w hok
  obtain rfl : list_node = ln := by
    rw [hfunc] at hf
    exact List.head_eq_of_cons_eq hf
  have hl := reduceToStrings_length ctx _ _ hred
  rw [hargs] at hl
  match lits, hred, hl with
  | [s0, s1, s2, s3], hred, _ =>
    have h3 : ctx.evaluateConstantExpressionOrIdentifierAsLiteral a3 = .ok (lit s3) := by
      have := hred
      simp only [reduceToStrings, hargs, List.map_cons, List.map_nil, List.cons.injEq] at this
      exact this.2.2.2.1
    refine ⟨s3, h3, ?_⟩
    rw [parseArguments_arity4 vt ctx ast_function list_node s0 s1 s2 s3 w hfunc hred] at hok ⊢
    by_cases he : s2.isEmpty = true
    · simp [he] at hok
    · simp [he]

theorem parseArguments_four_compression_witness :
    ∃ s3, sampleContext.evaluateConstantExpressionOrIdentifierAsLiteral (lit "gzip") =
        .ok (lit s3) ∧
      (parseArguments (sampleVTable "file") sampleContext
        (callNode "file" [lit "missing/*.csv", lit "CSV", lit "id UInt32", lit "gzip"])
        World.fresh).2.self.compression_method = s3 :=
  parseArguments_four_compression (sampleVTable "file") sampleContext
    (callNode "file" [lit "missing/*.csv", lit "CSV", lit "id UInt32", lit "gzip"])
    (.node "ExpressionList" [lit "missing/*.csv", lit "CSV", lit "id UInt32", lit "gzip"])
    (lit "missing/*.csv") (lit "CSV") (lit "id UInt32") (lit "gzip") World.fresh
    rfl rfl rfl

/-- C7: when `parseArguments` accepts a call with exactly 3 arguments on an object
whose `compression_method` still has the value it was constructed with, the
`compression_method` afterwards is "auto". -/
theorem parseArguments_three_compression (vt : VTable) (ctx : Context)
    (ast_function list_node a0 a1 a2 : IAST) (w : World)
    (hdefault : w.self.compression_method =
      ITableFunctionFileLike.fresh.compression_method)
    (hfunc : ast_function.children = [list_node])
    (hargs : list_node.children = [a0, a1, a2])
    (hok : (parseArguments vt ctx ast_function w).1 = .ok ()) :
    (parseArguments vt ctx ast_function w).2.self.compression_method = "auto" := by
  obtain ⟨ln, lits, hf, hred, -⟩ := parseArguments_ok_inv vt ctx ast_function w hok
  obtain rfl : list_node = ln := by
    rw [hfunc] at hf
    exact List.head_eq_of_cons_eq hf
  have hl := reduceToStrings_length ctx _ _ hred
  rw [hargs] at hl
  match lits, hred, hl with
  | [s0, s1, s2], hred, _ =>
    rw [parseArguments_arity3 vt ctx ast_function list_node s0 s1 s2 w hfunc hred]
    by_cases he : s2.isEmpty = true
    · simp [he, afterStructure, hdefault, ITableFunctionFileLike.fresh]
    · simp [he, afterStructure, hdefault, ITableFunctionFileLike.fresh]

theorem parseArguments_three_compression_witness :
    (parseArguments (sampleVTable "file") sampleContext
      (callNode "file" [lit "data/*.csv", lit "CSV", lit "id UInt32, name String"])
      World.fresh).2.self.compression_method = "auto" :=
  parseArguments_three_compression (sampleVTable "file") sampleContext
    (callNode "file" [lit "data/*.csv", lit "CSV", lit "id UInt32, name String"])
    (.node "ExpressionList" [lit "data/*.csv", lit "CSV", lit "id UInt32, name String"])
    (lit "data/*.csv") (lit "CSV") (lit "id UInt32, name String") World.fresh
    rfl rfl rfl rfl

/-- C8: for every function name, a call with 5 or more arguments that all reduce
to string literals throws NUMBER_OF_ARGUMENTS_DOESNT_MATCH; and a call that is
accepted has 3 or 4 arguments, or has 2, belongs to the function named "file"
and has left "Distributed" in `format`. -/
theorem parseArguments_accepted_arities (vt : VTable) (ctx : Context)
    (ast_function list_node : IAST) (w : World)
    (hfunc : ast_function.children = [list_node]) :
    (∀ lits, reduceToStrings ctx list_node.children lits →
      5 ≤ list_node.children.length →
      (parseArguments vt ctx ast_function w).1 = .error (.mk
        ("Table function '" ++ vt.getName ++
          "' requires 3 or 4 arguments: filename, format, structure and compression method (default auto).")
        .NUMBER_OF_ARGUMENTS_DOESNT_MATCH)) ∧
    ((parseArguments vt ctx ast_function w).1 = .ok () →
      list_node.children.length = 3 ∨ list_node.children.length = 4 ∨
      (list_node.children.length = 2 ∧ vt.getName = "file" ∧
        (parseArguments vt ctx ast_function w).2.self.format = "Distributed")) := by
  constructor
  · intro lits hred h5
    have hl := reduceToStrings_length ctx _ _ hred
    match lits, hred, hl with
    | s0 :: s1 :: s2 :: s3 :: s4 :: more, hred, _ =>
      rw [parseArguments_arity5 vt ctx ast_function list_node s0 s1 s2 s3 s4 more w hfunc hred]
    | [], _, hl | [_], _, hl | [_, _], _, hl | [_, _, _], _, hl | [_, _, _, _], _, hl =>
      simp only [List.length_cons, List.length_nil] at hl
      omega
  · intro hok
    obtain ⟨ln, lits, hf, hred, hlen⟩ := parseArguments_ok_inv vt ctx ast_function w hok
    obtain rfl : list_node = ln := by
      rw [hfunc] at hf
      exact List.head_eq_of_cons_eq hf
    have hl := reduceToStrings_length ctx _ _ hred
    rcases hlen with h2 | h3 | h4
    · right; right
      refine ⟨by omega, ?_⟩
      match lits, hred, h2 with
      | [s0, s1], hred, _ =>
        rw [parseArguments_arity2 vt ctx ast_function list_node s0 s1 w hfunc hred] at hok ⊢
        by_cases hn : vt.getName = "file"
        · by_cases hd : s1 = "Distributed"
          · simp [hn, hd, afterFormat]
          · simp [hn, hd] at hok
        · simp [hn] at hok
    · left; omega
    · right; left; omega

theorem parseArguments_accepted_arities_witness :
    (parseArguments (sampleVTable "file") sampleContext
      (callNode "file" [lit "a.csv", lit "CSV", lit "id UInt32", lit "gzip", lit "extra"])
      World.fresh).1 = .error (.mk
        ("Table function '" ++ (sampleVTable "file").getName ++
          "' requires 3 or 4 arguments: filename, format, structure and compression method (default auto).")
        .NUMBER_OF_ARGUMENTS_DOESNT_MATCH) :=
  (parseArguments_accepted_arities (sampleVTable "file") sampleContext
    (callNode "file" [lit "a.csv", lit "CSV", lit "id UInt32", lit "gzip", lit "extra"])
    (.node "ExpressionList"
      [lit "a.csv", lit "CSV", lit "id UInt32", lit "gzip", lit "extra"])
    World.fresh rfl).1 ["a.csv", "CSV", "id UInt32", "gzip", "extra"] rfl (by decide)

/-- C9: a call node whose number of children is not exactly 1 throws
LOGICAL_ERROR, whatever the children are; no member is assigned and nothing
outside is called, so no other validation step ran before. -/
theorem parseArguments_malformed_call (vt : VTable) (ctx : Context)
    (ast_function : IAST) (w : World)
    (hshape : ast_function.children.length ≠ 1) :
    parseArguments vt ctx ast_function w = (.error (.mk
      ("Table function '" ++ vt.getName ++ "' must have arguments.")
      .LOGICAL_ERROR), w) := by
  simp [parseArguments, hshape, M.throw]

theorem parseArguments_malformed_call_witness :
    parseArguments (sampleVTable "file") sampleContext
      (.node "Function_file" [.node "ExpressionList" [lit "a.csv", lit "Distributed"],
        .node "ExpressionList" []]) World.fresh = (.error (.mk
      ("Table function '" ++ (sampleVTable "file").getName ++ "' must have arguments.")
      .LOGICAL_ERROR), World.fresh) :=
  parseArguments_malformed_call (sampleVTable "file") sampleContext
    (.node "Function_file" [.node "ExpressionList" [lit "a.csv", lit "Distributed"],
      .node "ExpressionList" []]) World.fresh (by decide)

/-! ## Schema resolution with an explicit structure -/

/-- C10: on an object whose `structure` is not empty, `getActualTableStructure`
returns or throws exactly what the column-list grammar returns or throws for
that string, and that is the only call it makes: neither the path expander nor a
decoder is consulted. So `executeImpl` returns the storage whenever the grammar,
`getStorage` and `startup` succeed, whatever the path expander would answer. -/
theorem getActualTableStructure_explicit (vt : VTable) (ctx : Context) (w : World)
    (hne : w.self.structure_ ≠ "") :
    getActualTableStructure ctx w =
      (ctx.parseColumnsListFromString w.self.structure_,
        { w with trace := w.trace ++ [.parseColumnsListFromString w.self.structure_] }) ∧
    ∀ table_name columns storage,
      ctx.parseColumnsListFromString w.self.structure_ = .ok columns →
      vt.getStorage w.self.filename w.self.format columns table_name
        w.self.compression_method = .ok storage →
      ctx.startup storage = .ok () →
      executeImpl vt ctx table_name w = (.ok storage,
        { w with trace := w.trace ++
          [.parseColumnsListFromString w.self.structure_,
           .getStorage w.self.filename w.self.format columns table_name
             w.self.compression_method,
           .startup storage] }) := by
  have he : w.self.structure_.isEmpty = false := by
    rw [Bool.eq_false_iff, ne_eq, String.isEmpty_iff]
    exact hne
  have hs : getActualTableStructure ctx w =
      (ctx.parseColumnsListFromString w.self.structure_,
        { w with trace := w.trace ++ [.parseColumnsListFromString w.self.structure_] }) := by
    simp [getActualTableStructure, M.bind_eq, M.getSelf, he, M.call]
  refine ⟨hs, ?_⟩
  intro table_name columns storage hc hg hst
  simp [executeImpl, M.bind_eq, hs, hc, M.getSelf, M.call, hg, hst, M.pure]

theorem getActualTableStructure_explicit_witness :
    executeImpl (sampleVTable "file") sampleContext "t" World.explicitStructure =
      (.ok { id := 7 },
        { World.explicitStructure with trace :=
          [.parseColumnsListFromString "id UInt32",
           .getStorage "missing/*.csv" "CSV" { columns := [{ name := "id", type := "UInt32" }] }
             "t" "gzip",
           .startup { id := 7 }] }) :=
  (getActualTableStructure_explicit (sampleVTable "file") sampleContext
    World.explicitStructure (by decide)).2 "t"
    { columns := [{ name := "id", type := "UInt32" }] } { id := 7 } rfl rfl rfl

/-! ## Lemmas for schema resolution and resolution as a whole -/

theorem parseArguments_factor (vt : VTable) (ctx : Context) (ast_function : IAST) :
    parseArguments vt ctx ast_function =
      if ast_function.children.length ≠ 1 then
        M.throw (.mk ("Table function '" ++ vt.getName ++ "' must have arguments.")
          .LOGICAL_ERROR)
      else
        index "args_func.at(0)" ast_function.children 0 >>= fun list_node =>
          if list_node.children.length < 2 then
            M.throw (.mk ("Table function '" ++ vt.getName ++
              "' requires at least 2 arguments") .NUMBER_OF_ARGUMENTS_DOESNT_MATCH)
          else
            reduceArgs ctx list_node.children >>=
              parseReducedArguments vt ctx ast_function list_node := rfl

theorem keepsTrace_pure {α : Type} (a : α) : KeepsTrace (M.pure a) := fun _ => rfl

theorem keepsTrace_throw {α : Type} (e : Exception) : KeepsTrace (M.throw e : M α) :=
  fun _ => rfl

theorem keepsTrace_modifySelf (f : ITableFunctionFileLike → ITableFunctionFileLike) :
    KeepsTrace (M.modifySelf f) := fun _ => rfl

theorem keepsTrace_index {α : Type} (site : String) (v : List α) (i : Nat) :
    KeepsTrace (index site v i) := by
  intro w
  unfold DB.index
  cases v.get? i <;> rfl

theorem keepsTrace_literalString (ctx : Context) (n : IAST) :
    KeepsTrace (literalString ctx n) := by
  intro w
  rw [literalString_world]

theorem keepsTrace_bind {α β : Type} (x : M α) (f : α → M β) (hx : KeepsTrace x)
    (hf : ∀ a, KeepsTrace (f a)) : KeepsTrace (x >>= f) := by
  intro w
  rw [M.bind_eq]
  cases hxw : x w with
  | mk res w1 =>
    have h1 : w1.trace = w.trace := by simpa [hxw] using hx w
    cases res with
    | ok a =>
      show (f a w1).2.trace = w.trace
      rw [← h1]
      exact hf a w1
    | error e => exact h1

theorem keepsTrace_ite {α : Type} (c : Prop) [Decidable c] (x y : M α)
    (hx : KeepsTrace x) (hy : KeepsTrace y) : KeepsTrace (if c then x else y) := by
  split <;> assumption

theorem parseReducedArguments_keepsTrace (vt : VTable) (ctx : Context)
    (ast_function list_node : IAST) (args : List IAST) :
    KeepsTrace (parseReducedArguments vt ctx ast_function list_node args) := by
  unfold parseReducedArguments
  repeat' first
    | exact keepsTrace_pure _
    | exact keepsTrace_throw _
    | exact keepsTrace_modifySelf _
    | exact keepsTrace_index _ _ _
    | exact keepsTrace_literalString _ _
    | apply keepsTrace_ite
    | apply keepsTrace_bind
    | intro _

/-- When the reducer throws at an argument and has reduced all arguments before
it, the loop throws the same exception, having called the reducer on the
arguments up to and including that one, in order, and on none after it. -/
theorem reduceArgs_error (ctx : Context) (pre post rs : List IAST) (bad : IAST)
    (e : Exception)
    (hpre : pre.map ctx.evaluateConstantExpressionOrIdentifierAsLiteral = rs.map Except.ok)
    (hbad : ctx.evaluateConstantExpressionOrIdentifierAsLiteral bad = .error e)
    (w : World) :
    reduceArgs ctx (pre ++ bad :: post) w =
      (.error e, { w with trace := w.trace ++ reduceEvents (pre ++ [bad]) }) := by
  induction pre generalizing rs w with
  | nil => simp [reduceArgs, M.bind_eq, M.call, hbad, reduceEvents]
  | cons a pre ih =>
    cases rs with
    | nil => simp at hpre
    | cons r rs =>
      simp only [List.map_cons, List.cons.injEq] at hpre
      simp [reduceArgs, M.bind_eq, M.call, hpre.1, ih rs hpre.2, reduceEvents]

/-- The loop only calls the reducer, and never assigns a member. -/
theorem reduceArgs_world (ctx : Context) (args : List IAST) (w : World) :
    ∃ k, k ≤ args.length ∧
      (reduceArgs ctx args w).2 = { w with trace := w.trace ++ reduceEvents (args.take k) } := by
  induction args generalizing w with
  | nil => exact ⟨0, Nat.le_refl _, by simp [reduceArgs, M.pure, reduceEvents]⟩
  | cons a args ih =>
    cases ha : ctx.evaluateConstantExpressionOrIdentifierAsLiteral a with
    | error e =>
      exact ⟨1, by simp, by simp [reduceArgs, M.bind_eq, M.call, ha, reduceEvents]⟩
    | ok r =>
      obtain ⟨k, hk, hw⟩ := ih { w with trace := w.trace ++
        [Event.evaluateConstantExpressionOrIdentifierAsLiteral a] }
      refine ⟨k + 1, by simpa using hk, ?_⟩
      simp only [reduceArgs, M.bind_eq, M.call, ha, M.pure]
      cases hr : reduceArgs ctx args { w with trace := w.trace ++
          [Event.evaluateConstantExpressionOrIdentifierAsLiteral a] } with
      | mk res w1 =>
        rw [hr] at hw
        cases res <;> simp_all [reduceEvents]

/-- The calls `parseArguments` makes are calls to the reducer. -/
theorem parseArguments_events (vt : VTable) (ctx : Context) (ast_function : IAST)
    (w : World) :
    ∃ evs, (parseArguments vt ctx ast_function w).2.trace = w.trace ++ evs ∧
      ∀ ev ∈ evs, ev.isReduce = true := by
  rw [parseArguments_factor]
  by_cases h1 : ast_function.children.length ≠ 1
  · exact ⟨[], by simp [h1, M.throw], by simp⟩
  · obtain ⟨list_node, hfunc⟩ := List.length_eq_one.mp (not_not.mp h1)
    by_cases h2 : list_node.children.length < 2
    · exact ⟨[], by simp [hfunc, index, M.bind_eq, M.pure, M.throw, h2], by simp⟩
    · obtain ⟨k, -, hw⟩ := reduceArgs_world ctx list_node.children w
      refine ⟨reduceEvents (list_node.children.take k), ?_, ?_⟩
      · simp only [hfunc, List.length_singleton, ne_eq, not_true_eq_false, if_false, index,
          List.get?_cons_zero, h2]
        rw [M.bind_eq]
        simp only [M.pure, if_false, h2]
        rw [M.bind_eq]
        cases hr : reduceArgs ctx list_node.children w with
        | mk res w1 =>
          rw [hr] at hw
          have hw1 : w1.trace = w.trace ++ reduceEvents (list_node.children.take k) := by
            simpa using congrArg World.trace hw
          cases res with
          | error e => exact hw1
          | ok rs =>
            have := parseReducedArguments_keepsTrace vt ctx ast_function list_node rs w1
            simp only [this, hw1]
      · intro ev hev
        simp only [reduceEvents, List.mem_map] at hev
        obtain ⟨a, -, rfl⟩ := hev
        rfl

/-- The world after `getActualTableStructure` has asked for the root and expanded
the pattern. -/
theorem getActualTableStructure_no_paths (ctx : Context) (w : World) (n : Nat)
    (hs : w.self.structure_ = "")
    (hp : ctx.getPathsList w.self.filename ctx.getUserFilesPath 0 = .ok ([], n)) :
    getActualTableStructure ctx w = (.error (.mk
        "Cannot get table structure from file, because no files match specified name"
        .INCORRECT_FILE_NAME),
      { w with trace := w.trace ++
        [.getUserFilesPath, .getPathsList w.self.filename ctx.getUserFilesPath 0] }) := by
  have he : w.self.structure_.isEmpty = true := by rw [hs]; decide
  simp [getActualTableStructure, M.bind_eq, M.getSelf, he, M.call, hp, M.throw]

theorem getActualTableStructure_expander_error (ctx : Context) (w : World) (e : Exception)
    (hs : w.self.structure_ = "")
    (hp : ctx.getPathsList w.self.filename ctx.getUserFilesPath 0 = .error e) :
    getActualTableStructure ctx w = (.error e,
      { w with trace := w.trace ++
        [.getUserFilesPath, .getPathsList w.self.filename ctx.getUserFilesPath 0] }) := by
  have he : w.self.structure_.isEmpty = true := by rw [hs]; decide
  simp [getActualTableStructure, M.bind_eq, M.getSelf, he, M.call, hp]

/-- With no structure and at least one expanded path, the outcome is read off
the source opened for the first path. -/
theorem getActualTableStructure_paths (ctx : Context) (w : World) (p : String)
    (rest : Strings) (n : Nat)
    (hs : w.self.structure_ = "")
    (hp : ctx.getPathsList w.self.filename ctx.getUserFilesPath 0 = .ok (p :: rest, n)) :
    getActualTableStructure ctx w =
      (match ctx.createSourceFromFile p with
        | .error e => .error e
        | .ok read_stream =>
          match read_stream.getOutputs with
          | [] => .error (.out_of_range "getOutputs().front()")
          | port :: _ => .ok { columns := port.getHeader.getNamesAndTypesList },
       { w with trace := w.trace ++
        [.getUserFilesPath, .getPathsList w.self.filename ctx.getUserFilesPath 0,
         .createSourceFromFile p] }) := by
  have he : w.self.structure_.isEmpty = true := by rw [hs]; decide
  cases hsrc : ctx.createSourceFromFile p with
  | error e =>
    simp [getActualTableStructure, M.bind_eq, M.getSelf, he, M.call, hp, index, M.pure, hsrc]
  | ok read_stream =>
    cases hout : read_stream.getOutputs with
    | nil =>
      simp [getActualTableStructure, M.bind_eq, M.getSelf, he, M.call, hp, index, M.pure,
        hsrc, hout, M.throw]
    | cons port ports =>
      simp [getActualTableStructure, M.bind_eq, M.getSelf, he, M.call, hp, index, M.pure,
        hsrc, hout]

theorem getActualTableStructure_structure (ctx : Context) (w : World)
    (hne : w.self.structure_ ≠ "") :
    getActualTableStructure ctx w =
      (ctx.parseColumnsListFromString w.self.structure_,
        { w with trace := w.trace ++ [.parseColumnsListFromString w.self.structure_] }) := by
  have he : w.self.structure_.isEmpty = false := by
    rw [Bool.eq_false_iff, ne_eq, String.isEmpty_iff]
    exact hne
  simp [getActualTableStructure, M.bind_eq, M.getSelf, he, M.call]

/-- The member is `const`: it assigns nothing; and it calls neither the reducer,
nor the storage factory, nor `startup`. -/
theorem getActualTableStructure_world (ctx : Context) (w : World) :
    ∃ evs, (getActualTableStructure ctx w).2 = { w with trace := w.trace ++ evs } ∧
      ∀ ev ∈ evs, ev.isReduce = false ∧ ev.isGetStorage = false ∧ ev.isStartup = false := by
  by_cases hs : w.self.structure_ = ""
  · cases hp : ctx.getPathsList w.self.filename ctx.getUserFilesPath 0 with
    | error e =>
      rw [getActualTableStructure_expander_error ctx w e hs hp]
      exact ⟨_, rfl, by simp [Event.isReduce, Event.isGetStorage, Event.isStartup]⟩
    | ok r =>
      obtain ⟨paths, n⟩ := r
      cases paths with
      | nil =>
        rw [getActualTableStructure_no_paths ctx w n hs hp]
        exact ⟨_, rfl, by simp [Event.isReduce, Event.isGetStorage, Event.isStartup]⟩
      | cons p rest =>
        rw [getActualTableStructure_paths ctx w p rest n hs hp]
        exact ⟨_, rfl, by simp [Event.isReduce, Event.isGetStorage, Event.isStartup]⟩
  · rw [getActualTableStructure_structure ctx w hs]
    exact ⟨_, rfl, by simp [Event.isReduce, Event.isGetStorage, Event.isStartup]⟩

theorem eventsSince_append (w : World) (self : ITableFunctionFileLike) (evs : List Event) :
    eventsSince w { self := self, trace := w.trace ++ evs } = evs := by
  simp [eventsSince]

theorem Event.not_isGetStorage_of_isReduce (ev : Event) (h : ev.isReduce = true) :
    ev.isGetStorage = false := by
  cases ev <;> simp_all [Event.isReduce, Event.isGetStorage]

theorem Event.not_isStartup_of_isReduce (ev : Event) (h : ev.isReduce = true) :
    ev.isStartup = false := by
  cases ev <;> simp_all [Event.isReduce, Event.isStartup]

/-! ## Schema inference and storage construction -/

/-- C11: on an object with no structure, when the path expander returns an empty
list, `getActualTableStructure` throws INCORRECT_FILE_NAME; the calls it has made
are the root lookup and the expansion, so no decoding source was opened. -/
theorem getActualTableStructure_no_matching_files (ctx : Context) (w : World) (n : Nat)
    (hs : w.self.structure_ = "")
    (hp : ctx.getPathsList w.self.filename ctx.getUserFilesPath 0 = .ok ([], n)) :
    getActualTableStructure ctx w = (.error (.mk
        "Cannot get table structure from file, because no files match specified name"
        .INCORRECT_FILE_NAME),
      { w with trace := w.trace ++
        [.getUserFilesPath, .getPathsList w.self.filename ctx.getUserFilesPath 0] }) ∧
    ∀ ev ∈ eventsSince w (getActualTableStructure ctx w).2,
      ev.isCreateSourceFromFile = false := by
  have h := getActualTableStructure_no_paths ctx w n hs hp
  refine ⟨h, ?_⟩
  rw [h, eventsSince_append]
  simp [Event.isCreateSourceFromFile]

theorem getActualTableStructure_no_matching_files_witness :
    getActualTableStructure sampleContext World.shorthand = (.error (.mk
        "Cannot get table structure from file, because no files match specified name"
        .INCORRECT_FILE_NAME),
      { World.shorthand with trace :=
        [.getUserFilesPath, .getPathsList "missing/*.csv" "/user_files/" 0] }) :=
  (getActualTableStructure_no_matching_files sampleContext World.shorthand 0 rfl rfl).1

/-- C12: on the object a successful `parseArguments` has left, when schema
resolution, the storage factory and `startup` succeed, `executeImpl` returns the
handle the factory gave. Among all calls made since before the parse there is
exactly one `getStorage`, keyed by the parsed `filename`, `format` and
`compression_method`, the resolved columns and the table name, and exactly one
`startup`, on that handle; they are the last two calls, in this order. -/
theorem executeImpl_one_storage_started_once (vt : VTable) (ctx : Context)
    (ast_function : IAST) (table_name : String) (w0 w w1 : World)
    (columns : ColumnsDescription) (storage : StoragePtr)
    (hparse : parseArguments vt ctx ast_function w0 = (.ok (), w))
    (hschema : getActualTableStructure ctx w = (.ok columns, w1))
    (hstorage : vt.getStorage w.self.filename w.self.format columns table_name
      w.self.compression_method = .ok storage)
    (hstartup : ctx.startup storage = .ok ()) :
    executeImpl vt ctx table_name w = (.ok storage,
      { w1 with trace := w1.trace ++
        [.getStorage w.self.filename w.self.format columns table_name
           w.self.compression_method,
         .startup storage] }) ∧
    (eventsSince w0 (executeImpl vt ctx table_name w).2).filter Event.isGetStorage =
      [.getStorage w.self.filename w.self.format columns table_name
         w.self.compression_method] ∧
    (eventsSince w0 (executeImpl vt ctx table_name w).2).filter Event.isStartup =
      [.startup storage] := by
  obtain ⟨evs0, h0, hr0⟩ := parseArguments_events vt ctx ast_function w0
  rw [hparse] at h0
  simp only at h0
  obtain ⟨evs, hw, hev⟩ := getActualTableStructure_world ctx w
  rw [hschema] at hw
  simp only at hw
  subst hw
  have hex : executeImpl vt ctx table_name w = (.ok storage,
      { self := w.self, trace := w0.trace ++ (evs0 ++ (evs ++
        [.getStorage w.self.filename w.self.format columns table_name
           w.self.compression_method,
         .startup storage])) }) := by
    simp [executeImpl, M.bind_eq, hschema, M.getSelf, M.call, hstorage, hstartup, M.pure, h0]
  refine ⟨?_, ?_, ?_⟩
  · rw [hex]
    simp [h0]
  · rw [hex, eventsSince_append]
    simp only [List.filter_append]
    have h1 : evs0.filter Event.isGetStorage = [] :=
      List.filter_eq_nil_iff.mpr (fun ev h => by simp [Event.not_isGetStorage_of_isReduce ev (hr0 ev h)])
    have h2 : evs.filter Event.isGetStorage = [] :=
      List.filter_eq_nil_iff.mpr (fun ev h => by simp [(hev ev h).2.1])
    simp [h1, h2, Event.isGetStorage]
  · rw [hex, eventsSince_append]
    simp only [List.filter_append]
    have h1 : evs0.filter Event.isStartup = [] :=
      List.filter_eq_nil_iff.mpr (fun ev h => by simp [Event.not_isStartup_of_isReduce ev (hr0 ev h)])
    have h2 : evs.filter Event.isStartup = [] :=
      List.filter_eq_nil_iff.mpr (fun ev h => by simp [(hev ev h).2.2])
    simp [h1, h2, Event.isStartup]

theorem executeImpl_one_storage_started_once_witness :
    executeImpl (sampleVTable "file") inferContext "t"
        { self := { filename := "shard1/*.bin", format := "Distributed", structure_ := "",
                    compression_method := "auto" },
          trace := reduceEvents [lit "shard1/*.bin", lit "Distributed"] } =
      (.ok { id := 7 },
        { self := { filename := "shard1/*.bin", format := "Distributed", structure_ := "",
                    compression_method := "auto" },
          trace := reduceEvents [lit "shard1/*.bin", lit "Distributed"] ++
            [.getUserFilesPath, .getPathsList "shard1/*.bin" "/user_files/" 0,
             .createSourceFromFile "shard1/1.bin"] ++
            [.getStorage "shard1/*.bin" "Distributed"
               { columns := [{ name := "id", type := "UInt32" }] } "t" "auto",
             .startup { id := 7 }] }) :=
  (executeImpl_one_storage_started_once (sampleVTable "file") inferContext
    (callNode "file" [lit "shard1/*.bin", lit "Distributed"]) "t" World.fresh _ _
    { columns := [{ name := "id", type := "UInt32" }] } { id := 7 } rfl rfl rfl rfl).1


/-- C13: if `parseArguments` throws, or it returns and `getActualTableStructure`
then throws, resolution throws that same exception and stops in the world of the
throw; since before the parse neither the storage factory nor `startup` has been
called, so no storage, started or not, comes out. -/
theorem resolve_failure_propagates (vt : VTable) (ctx : Context) (ast_function : IAST)
    (table_name : String) (w w1 : World) (e : Exception)
    (h : parseArguments vt ctx ast_function w = (.error e, w1) ∨
      ∃ wp, parseArguments vt ctx ast_function w = (.ok (), wp) ∧
        getActualTableStructure ctx wp = (.error e, w1)) :
    resolve vt ctx ast_function table_name w = (.error e, w1) ∧
    (∀ storage, (resolve vt ctx ast_function table_name w).1 ≠ .ok storage) ∧
    ∀ ev ∈ eventsSince w w1, ev.isGetStorage = false ∧ ev.isStartup = false := by
  obtain ⟨evs0, h0, hr0⟩ := parseArguments_events vt ctx ast_function w
  rcases h with hp | ⟨wp, hp, hs⟩
  · have hres : resolve vt ctx ast_function table_name w = (.error e, w1) := by
      simp [resolve, M.bind_eq, hp]
    refine ⟨hres, by simp [hres], ?_⟩
    rw [hp] at h0
    simp only at h0
    intro ev hev
    have hmem : ev ∈ evs0 := by simpa [eventsSince, h0] using hev
    exact ⟨Event.not_isGetStorage_of_isReduce ev (hr0 ev hmem),
      Event.not_isStartup_of_isReduce ev (hr0 ev hmem)⟩
  · have hres : resolve vt ctx ast_function table_name w = (.error e, w1) := by
      simp [resolve, M.bind_eq, hp, executeImpl, hs]
    refine ⟨hres, by simp [hres], ?_⟩
    rw [hp] at h0
    simp only at h0
    obtain ⟨evs, hw, hev⟩ := getActualTableStructure_world ctx wp
    rw [hs] at hw
    simp only at hw
    intro ev hmem
    have hmem2 : ev ∈ evs0 ∨ ev ∈ evs := by
      simpa [eventsSince, hw, h0, List.append_assoc] using hmem
    rcases hmem2 with hm | hm
    · exact ⟨Event.not_isGetStorage_of_isReduce ev (hr0 ev hm),
        Event.not_isStartup_of_isReduce ev (hr0 ev hm)⟩
    · exact ⟨(hev ev hm).2.1, (hev ev hm).2.2⟩

theorem resolve_failure_propagates_witness :
    resolve (sampleVTable "file") sampleContext
        (callNode "file" [lit "missing/*.csv", lit "Distributed"]) "t" World.fresh =
      (.error (.mk
        "Cannot get table structure from file, because no files match specified name"
        .INCORRECT_FILE_NAME),
       { self := World.shorthand.self,
         trace := reduceEvents [lit "missing/*.csv", lit "Distributed"] ++
           [.getUserFilesPath, .getPathsList "missing/*.csv" "/user_files/" 0] }) :=
  (resolve_failure_propagates (sampleVTable "file") sampleContext
    (callNode "file" [lit "missing/*.csv", lit "Distributed"]) "t" World.fresh _ _
    (Or.inr ⟨_, rfl, rfl⟩)).1


/-- C14, as stated, fails: resolving `file('missing/*.csv', 'CSV')` where no file
matches throws NUMBER_OF_ARGUMENTS_DOESNT_MATCH in `parseArguments`, after the
two reducer calls and before any path expansion; it does not throw
INCORRECT_FILE_NAME. -/
theorem resolve_file_CSV_not_no_matching_files :
    resolve (sampleVTable "file") sampleContext
        (callNode "file" [lit "missing/*.csv", lit "CSV"]) "t" World.fresh =
      (.error (.mk "Table function 'file' allows 2 arguments only for Distributed format."
        .NUMBER_OF_ARGUMENTS_DOESNT_MATCH),
       { self := { ITableFunctionFileLike.fresh with
           filename := "missing/*.csv", format := "CSV" },
         trace := reduceEvents [lit "missing/*.csv", lit "CSV"] }) ∧
    ∀ message, (resolve (sampleVTable "file") sampleContext
        (callNode "file" [lit "missing/*.csv", lit "CSV"]) "t" World.fresh).1 ≠
      .error (.mk message .INCORRECT_FILE_NAME) := by
  have h : resolve (sampleVTable "file") sampleContext
        (callNode "file" [lit "missing/*.csv", lit "CSV"]) "t" World.fresh =
      (.error (.mk "Table function 'file' allows 2 arguments only for Distributed format."
        .NUMBER_OF_ARGUMENTS_DOESNT_MATCH),
       { self := { ITableFunctionFileLike.fresh with
           filename := "missing/*.csv", format := "CSV" },
         trace := reduceEvents [lit "missing/*.csv", lit "CSV"] }) := by
    rfl
  refine ⟨h, ?_⟩
  intro message
  rw [h]
  simp

/-- C14, amended: for the function named "file" and a call with two arguments
reducing to the literals 'missing/*.csv' and `second`: if `second` is not
"Distributed" (so for 'CSV'), resolution throws NUMBER_OF_ARGUMENTS_DOESNT_MATCH
after the two reducer calls only, on every object and whatever the path expander
would answer; if `second` is "Distributed", then on an object without structure
and where no file matches, resolution throws INCORRECT_FILE_NAME. -/
theorem resolve_file_two_arguments_no_match (vt : VTable) (ctx : Context)
    (ast_function list_node a0 a1 : IAST) (second table_name : String) (w : World)
    (hname : vt.getName = "file")
    (hfunc : ast_function.children = [list_node])
    (hargs : list_node.children = [a0, a1])
    (h0 : ctx.evaluateConstantExpressionOrIdentifierAsLiteral a0 = .ok (lit "missing/*.csv"))
    (h1 : ctx.evaluateConstantExpressionOrIdentifierAsLiteral a1 = .ok (lit second)) :
    (second ≠ "Distributed" →
      resolve vt ctx ast_function table_name w = (.error (.mk
        "Table function 'file' allows 2 arguments only for Distributed format."
        .NUMBER_OF_ARGUMENTS_DOESNT_MATCH),
        afterFormat w [a0, a1] "missing/*.csv" second)) ∧
    (second = "Distributed" → w.self.structure_ = "" →
      ∀ n, ctx.getPathsList "missing/*.csv" ctx.getUserFilesPath 0 = .ok ([], n) →
      resolve vt ctx ast_function table_name w = (.error (.mk
        "Cannot get table structure from file, because no files match specified name"
        .INCORRECT_FILE_NAME),
        { afterFormat w [a0, a1] "missing/*.csv" second with
          trace := w.trace ++ reduceEvents [a0, a1] ++
            [.getUserFilesPath, .getPathsList "missing/*.csv" ctx.getUserFilesPath 0] })) := by
  have hred : reduceToStrings ctx list_node.children ["missing/*.csv", second] := by
    simp [reduceToStrings, hargs, h0, h1]
  have hparse := parseArguments_arity2 vt ctx ast_function list_node "missing/*.csv" second w
    hfunc hred
  rw [hargs] at hparse
  constructor
  · intro hd
    simp [resolve, M.bind_eq, hparse, hname, hd]
  · intro hd hs n hnone
    subst hd
    have hschema := getActualTableStructure_no_paths ctx
      (afterFormat w [a0, a1] "missing/*.csv" "Distributed") n
      (by simpa [afterFormat] using hs) (by simpa [afterFormat] using hnone)
    simp only [resolve, M.bind_eq, hparse, hname, if_true, executeImpl, hschema]
    simp [afterFormat]

theorem resolve_file_two_arguments_no_match_witness :
    resolve (sampleVTable "file") inferContext
        (callNode "file" [lit "missing/*.csv", lit "CSV"]) "t" World.explicitStructure =
      (.error (.mk "Table function 'file' allows 2 arguments only for Distributed format."
        .NUMBER_OF_ARGUMENTS_DOESNT_MATCH),
        afterFormat World.explicitStructure [lit "missing/*.csv", lit "CSV"]
          "missing/*.csv" "CSV") :=
  (resolve_file_two_arguments_no_match (sampleVTable "file") inferContext
    (callNode "file" [lit "missing/*.csv", lit "CSV"])
    (.node "ExpressionList" [lit "missing/*.csv", lit "CSV"])
    (lit "missing/*.csv") (lit "CSV") "CSV" "t" World.explicitStructure
    rfl rfl rfl rfl rfl).1 (by decide)

/-- C15: on an object with no structure, when the expanded list starts with
path `p`, the source opened for `p` has a first output port, the result is
exactly the names and types of that port's header, in order, and `p` is the only
path for which a source is opened. Any other expansion that starts with `p`, with
other later paths and another byte estimate, gives the same result. -/
theorem getActualTableStructure_first_path_only (ctx : Context) (w : World) (p : String)
    (rest : Strings) (n : Nat) (read_stream : Source) (port : OutputPort)
    (ports : List OutputPort)
    (hs : w.self.structure_ = "")
    (hp : ctx.getPathsList w.self.filename ctx.getUserFilesPath 0 = .ok (p :: rest, n))
    (hsrc : ctx.createSourceFromFile p = .ok read_stream)
    (hout : read_stream.getOutputs = port :: ports) :
    getActualTableStructure ctx w =
      (.ok { columns := port.getHeader.getNamesAndTypesList },
       { w with trace := w.trace ++
        [.getUserFilesPath, .getPathsList w.self.filename ctx.getUserFilesPath 0,
         .createSourceFromFile p] }) ∧
    ∀ (ctx' : Context) (rest' : Strings) (n' : Nat),
      ctx'.createSourceFromFile = ctx.createSourceFromFile →
      ctx'.getPathsList w.self.filename ctx'.getUserFilesPath 0 = .ok (p :: rest', n') →
      (getActualTableStructure ctx' w).1 =
        .ok { columns := port.getHeader.getNamesAndTypesList } := by
  constructor
  · rw [getActualTableStructure_paths ctx w p rest n hs hp]
    simp [hsrc, hout]
  · intro ctx' rest' n' hsame hp'
    rw [getActualTableStructure_paths ctx' w p rest' n' hs hp']
    simp [hsame, hsrc, hout]

theorem getActualTableStructure_first_path_only_witness :
    (getActualTableStructure inferContextOtherTail World.inferred).1 =
      .ok { columns := [{ name := "id", type := "UInt32" }] } :=
  (getActualTableStructure_first_path_only inferContext World.inferred "shard1/1.bin"
    ["shard1/2.bin"] 4096 (sampleSource [{ name := "id", type := "UInt32" }])
    { getHeader := { getNamesAndTypesList := [{ name := "id", type := "UInt32" }] } } []
    rfl rfl rfl rfl).2 inferContextOtherTail ["shard9/7.bin", "shard9/8.bin"] 1 rfl rfl

/-- C16, as stated, fails: on the object `file('shard1/*.bin', 'Distributed')`
leaves, schema inference opens its source with the single argument
'shard1/1.bin'; the call is not `open(format, path)`. -/
theorem decoder_call_without_format :
    decoderCalls (eventsSince World.inferred
        (getActualTableStructure inferContext World.inferred).2) = [["shard1/1.bin"]] ∧
    decoderCalls (eventsSince World.inferred
        (getActualTableStructure inferContext World.inferred).2) ≠
      [specDecoderCall World.inferred.self.format "shard1/1.bin"] := by
  have h : decoderCalls (eventsSince World.inferred
      (getActualTableStructure inferContext World.inferred).2) = [["shard1/1.bin"]] := by
    rfl
  refine ⟨h, ?_⟩
  rw [h]
  simp [specDecoderCall]

/-- C16, amended: when schema inference is performed (no structure, expanded list
starting with `p`), the one decoding source is opened by
`createSourceFromFile` with `p` as its only argument, and the outcome is the same
whatever value `format` holds. -/
theorem decoder_opened_from_path_alone (ctx : Context) (w : World) (p : String)
    (rest : Strings) (n : Nat)
    (hs : w.self.structure_ = "")
    (hp : ctx.getPathsList w.self.filename ctx.getUserFilesPath 0 = .ok (p :: rest, n)) :
    decoderCalls (eventsSince w (getActualTableStructure ctx w).2) = [[p]] ∧
    ∀ format : String,
      (getActualTableStructure ctx { w with self := { w.self with format := format } }).1 =
        (getActualTableStructure ctx w).1 ∧
      (getActualTableStructure ctx { w with self := { w.self with format := format } }).2.trace =
        (getActualTableStructure ctx w).2.trace := by
  constructor
  · rw [getActualTableStructure_paths ctx w p rest n hs hp, eventsSince_append]
    simp [decoderCalls]
  · intro format
    rw [getActualTableStructure_paths ctx w p rest n hs hp,
      getActualTableStructure_paths ctx { w with self := { w.self with format := format } }
        p rest n hs hp]
    exact ⟨rfl, rfl⟩

theorem decoder_opened_from_path_alone_witness :
    decoderCalls (eventsSince World.inferred
        (getActualTableStructure inferContext World.inferred).2) = [["shard1/1.bin"]] :=
  (decoder_opened_from_path_alone inferContext World.inferred "shard1/1.bin"
    ["shard1/2.bin"] 4096 rfl rfl).1


/-! ## Order of validation -/

/-- C17: for a call with one argument list: with fewer than 2 arguments
`parseArguments` throws NUMBER_OF_ARGUMENTS_DOESNT_MATCH and has called nothing,
so the reducer saw no argument. With 2 or more arguments the reducer is called
on the arguments in order: if it throws on one, having reduced those before it,
`parseArguments` throws that same exception, whatever the arity and the function
name, after exactly the reducer calls up to that argument and with no member
assigned; if it reduces all of them, the calls made are exactly one reducer call
per argument, in order, whatever the later checks decide. -/
theorem parseArguments_fail_fast (vt : VTable) (ctx : Context)
    (ast_function list_node : IAST) (w : World)
    (hfunc : ast_function.children = [list_node]) :
    (list_node.children.length < 2 →
      parseArguments vt ctx ast_function w = (.error (.mk
        ("Table function '" ++ vt.getName ++ "' requires at least 2 arguments")
        .NUMBER_OF_ARGUMENTS_DOESNT_MATCH), w)) ∧
    (2 ≤ list_node.children.length →
      ∀ (pre post rs : List IAST) (bad : IAST) (e : Exception),
        list_node.children = pre ++ bad :: post →
        pre.map ctx.evaluateConstantExpressionOrIdentifierAsLiteral = rs.map Except.ok →
        ctx.evaluateConstantExpressionOrIdentifierAsLiteral bad = .error e →
        parseArguments vt ctx ast_function w =
          (.error e, { w with trace := w.trace ++ reduceEvents (pre ++ [bad]) })) ∧
    (2 ≤ list_node.children.length →
      ∀ rs : List IAST,
        list_node.children.map ctx.evaluateConstantExpressionOrIdentifierAsLiteral =
          rs.map Except.ok →
        (parseArguments vt ctx ast_function w).2.trace =
          w.trace ++ reduceEvents list_node.children) := by
  have hstart : ∀ (h2 : ¬ list_node.children.length < 2),
      parseArguments vt ctx ast_function w =
        (reduceArgs ctx list_node.children >>=
          parseReducedArguments vt ctx ast_function list_node) w := by
    intro h2
    rw [parseArguments_factor]
    simp [hfunc, index, M.bind_eq, M.pure, h2]
  refine ⟨?_, ?_, ?_⟩
  · intro h2
    simp [parseArguments, hfunc, index, M.bind_eq, M.throw, M.pure, h2]
  · intro h2 pre post rs bad e hchildren hpre hbad
    rw [hstart (by omega), M.bind_eq, hchildren, reduceArgs_error ctx pre post rs bad e hpre hbad]
  · intro h2 rs hall
    rw [hstart (by omega), M.bind_eq, reduceArgs_ok ctx _ rs hall]
    exact parseReducedArguments_keepsTrace vt ctx ast_function list_node rs _

theorem parseArguments_fail_fast_witness :
    parseArguments (sampleVTable "s3") sampleContext
        (callNode "s3" [lit "https://bucket/a.csv", lit "CSV", lit "id UInt32",
          .node "plus" [lit "gz", lit "ip"], lit "extra"]) World.fresh =
      (.error (.mk "Not a constant expression: plus" (.foreign 36)),
        { self := ITableFunctionFileLike.fresh,
          trace := reduceEvents [lit "https://bucket/a.csv", lit "CSV", lit "id UInt32",
            .node "plus" [lit "gz", lit "ip"]] }) :=
  (parseArguments_fail_fast (sampleVTable "s3") sampleContext
    (callNode "s3" [lit "https://bucket/a.csv", lit "CSV", lit "id UInt32",
      .node "plus" [lit "gz", lit "ip"], lit "extra"])
    (.node "ExpressionList" [lit "https://bucket/a.csv", lit "CSV", lit "id UInt32",
      .node "plus" [lit "gz", lit "ip"], lit "extra"]) World.fresh rfl).2.1 (by decide)
    [lit "https://bucket/a.csv", lit "CSV", lit "id UInt32"] [lit "extra"]
    [lit "https://bucket/a.csv", lit "CSV", lit "id UInt32"]
    (.node "plus" [lit "gz", lit "ip"])
    (.mk "Not a constant expression: plus" (.foreign 36)) rfl rfl rfl


/-! ## When the path expander is consulted -/

/-- With a structure, the only call of `getActualTableStructure` is the one to
the column-list grammar. -/
theorem getActualTableStructure_expansion_only_if_empty (ctx : Context) (w : World) :
    ∀ ev ∈ eventsSince w (getActualTableStructure ctx w).2,
      ev.isGetPathsList = true ∨ ev.isCreateSourceFromFile = true →
      w.self.structure_ = "" := by
  intro ev hev hkind
  by_contra hne
  rw [getActualTableStructure_structure ctx w hne, eventsSince_append] at hev
  simp only [List.mem_singleton] at hev
  subst hev
  simp [Event.isGetPathsList, Event.isCreateSourceFromFile] at hkind

/-- Without a structure, `getActualTableStructure` calls the path expander. -/
theorem getActualTableStructure_expands (ctx : Context) (w : World)
    (hs : w.self.structure_ = "") :
    ∃ ev ∈ eventsSince w (getActualTableStructure ctx w).2, ev.isGetPathsList = true := by
  refine ⟨.getPathsList w.self.filename ctx.getUserFilesPath 0, ?_, rfl⟩
  cases hp : ctx.getPathsList w.self.filename ctx.getUserFilesPath 0 with
  | error e =>
    rw [getActualTableStructure_expander_error ctx w e hs hp, eventsSince_append]
    simp
  | ok r =>
    obtain ⟨paths, n⟩ := r
    cases paths with
    | nil =>
      rw [getActualTableStructure_no_paths ctx w n hs hp, eventsSince_append]
      simp
    | cons p rest =>
      rw [getActualTableStructure_paths ctx w p rest n hs hp, eventsSince_append]
      simp

/-- After schema resolution `executeImpl` only calls the storage factory and
`startup`. -/
theorem executeImpl_events (vt : VTable) (ctx : Context) (table_name : String) (w : World) :
    ∃ tail, eventsSince w (executeImpl vt ctx table_name w).2 =
        eventsSince w (getActualTableStructure ctx w).2 ++ tail ∧
      ∀ ev ∈ tail, ev.isGetPathsList = false ∧ ev.isCreateSourceFromFile = false := by
  obtain ⟨evs, hw, -⟩ := getActualTableStructure_world ctx w
  cases hr : getActualTableStructure ctx w with
  | mk res w1 =>
    rw [hr] at hw
    simp only at hw
    subst hw
    cases res with
    | error e =>
      refine ⟨[], ?_, by simp⟩
      simp [executeImpl, M.bind_eq, hr]
    | ok columns =>
      cases hg : vt.getStorage w.self.filename w.self.format columns table_name
          w.self.compression_method with
      | error e =>
        refine ⟨[.getStorage w.self.filename w.self.format columns table_name
          w.self.compression_method], ?_,
          by simp [Event.isGetPathsList, Event.isCreateSourceFromFile]⟩
        simp [executeImpl, M.bind_eq, hr, M.getSelf, M.call, hg, eventsSince]
      | ok storage =>
        refine ⟨[.getStorage w.self.filename w.self.format columns table_name
          w.self.compression_method, .startup storage], ?_,
          by simp [Event.isGetPathsList, Event.isCreateSourceFromFile]⟩
        cases hst : ctx.startup storage <;>
          simp [executeImpl, M.bind_eq, hr, M.getSelf, M.call, hg, hst, eventsSince, M.pure]

/-- C18: starting from a freshly constructed object, after a successful
`parseArguments` on a call with one argument list: `structure` is empty if and
only if the call has 2 arguments, the function is named "file" and `format` is
"Distributed"; in that case `compression_method` is still "auto". Afterwards
`executeImpl` and `getActualTableStructure` call the path expander or open a
source only if `structure` is empty, and when it is empty the path expander is
called. -/
theorem parseArguments_structure_empty_iff_shorthand (vt : VTable) (ctx : Context)
    (ast_function list_node : IAST) (w w' : World)
    (hfresh : w.self = ITableFunctionFileLike.fresh)
    (hfunc : ast_function.children = [list_node])
    (hparse : parseArguments vt ctx ast_function w = (.ok (), w')) :
    (w'.self.structure_ = "" ↔
      list_node.children.length = 2 ∧ vt.getName = "file" ∧
        w'.self.format = "Distributed") ∧
    (w'.self.structure_ = "" → w'.self.compression_method = "auto") ∧
    (∀ (env : Context) (table_name : String),
      ∀ ev ∈ eventsSince w' (executeImpl vt env table_name w').2,
        ev.isGetPathsList = true ∨ ev.isCreateSourceFromFile = true →
        w'.self.structure_ = "") ∧
    (∀ env : Context,
      ∀ ev ∈ eventsSince w' (getActualTableStructure env w').2,
        ev.isGetPathsList = true ∨ ev.isCreateSourceFromFile = true →
        w'.self.structure_ = "") ∧
    (w'.self.structure_ = "" → ∀ env : Context,
      ∃ ev ∈ eventsSince w' (getActualTableStructure env w').2,
        ev.isGetPathsList = true) := by
  have hok : (parseArguments vt ctx ast_function w).1 = .ok () := by rw [hparse]
  obtain ⟨ln, lits, hf, hred, hlen⟩ := parseArguments_ok_inv vt ctx ast_function w hok
  obtain rfl : list_node = ln := by
    rw [hfunc] at hf
    exact List.head_eq_of_cons_eq hf
  have hl := reduceToStrings_length ctx _ _ hred
  have hstate : (w'.self.structure_ = "" ↔
      list_node.children.length = 2 ∧ vt.getName = "file" ∧
        w'.self.format = "Distributed") ∧
      (w'.self.structure_ = "" → w'.self.compression_method = "auto") := by
    rcases hlen with h2 | h3 | h4
    · match lits, hred, h2 with
      | [s0, s1], hred, _ =>
        rw [parseArguments_arity2 vt ctx ast_function list_node s0 s1 w hfunc hred] at hparse
        by_cases hn : vt.getName = "file"
        · by_cases hd : s1 = "Distributed"
          · simp only [hn, hd, if_true, Prod.mk.injEq, true_and] at hparse
            subst hparse
            simp only [List.length_cons, List.length_nil] at hl
            simp [afterFormat, hfresh, ITableFunctionFileLike.fresh, hn, ← hl]
          · simp [hn, hd] at hparse
        · simp [hn] at hparse
    · match lits, hred, h3 with
      | [s0, s1, s2], hred, _ =>
        rw [parseArguments_arity3 vt ctx ast_function list_node s0 s1 s2 w hfunc hred] at hparse
        by_cases he : s2.isEmpty = true
        · simp [he] at hparse
        · simp only [he, Bool.false_eq_true, if_false, Prod.mk.injEq, true_and] at hparse
          subst hparse
          have hne : s2 ≠ "" := fun h => he ((String.isEmpty_iff s2).mpr h)
          simp only [List.length_cons, List.length_nil] at hl
          simp [afterStructure, hne, ← hl]
    · match lits, hred, h4 with
      | [s0, s1, s2, s3], hred, _ =>
        rw [parseArguments_arity4 vt ctx ast_function list_node s0 s1 s2 s3 w hfunc hred]
          at hparse
        by_cases he : s2.isEmpty = true
        · simp [he] at hparse
        · simp only [he, Bool.false_eq_true, if_false, Prod.mk.injEq, true_and] at hparse
          subst hparse
          have hne : s2 ≠ "" := fun h => he ((String.isEmpty_iff s2).mpr h)
          simp only [List.length_cons, List.length_nil] at hl
          simp [hne, ← hl]
  refine ⟨hstate.1, hstate.2, ?_, ?_, ?_⟩
  · intro env table_name ev hev hkind
    obtain ⟨tail, htail, hnone⟩ := executeImpl_events vt env table_name w'
    rw [htail, List.mem_append] at hev
    rcases hev with hev | hev
    · exact getActualTableStructure_expansion_only_if_empty env w' ev hev hkind
    · have := hnone ev hev
      rcases hkind with hk | hk <;> simp [this] at hk
  · intro env
    exact getActualTableStructure_expansion_only_if_empty env w'
  · intro hs env
    exact getActualTableStructure_expands env w' hs


theorem parseArguments_structure_empty_iff_shorthand_witness :
    ((afterFormat World.fresh [lit "shard1/*.bin", lit "Distributed"]
        "shard1/*.bin" "Distributed").self.structure_ = "" ↔
      [lit "shard1/*.bin", lit "Distributed"].length = 2 ∧
        (sampleVTable "file").getName = "file" ∧
        (afterFormat World.fresh [lit "shard1/*.bin", lit "Distributed"]
          "shard1/*.bin" "Distributed").self.format = "Distributed") ∧
    (afterFormat World.fresh [lit "shard1/*.bin", lit "Distributed"]
        "shard1/*.bin" "Distributed").self.compression_method = "auto" :=
  ⟨(parseArguments_structure_empty_iff_shorthand (sampleVTable "file") sampleContext
    (callNode "file" [lit "shard1/*.bin", lit "Distributed"])
    (.node "ExpressionList" [lit "shard1/*.bin", lit "Distributed"]) World.fresh
    (afterFormat World.fresh [lit "shard1/*.bin", lit "Distributed"]
      "shard1/*.bin" "Distributed") rfl rfl rfl).1,
   (parseArguments_structure_empty_iff_shorthand (sampleVTable "file") sampleContext
    (callNode "file" [lit "shard1/*.bin", lit "Distributed"])
    (.node "ExpressionList" [lit "shard1/*.bin", lit "Distributed"]) World.fresh
    (afterFormat World.fresh [lit "shard1/*.bin", lit "Distributed"]
      "shard1/*.bin" "Distributed") rfl rfl rfl).2.1 rfl⟩

/-! ## Positional accesses -/

theorem inRange_pure {α : Type} (a : α) : InRange (M.pure a) := by
  intro w site
  simp [M.pure]

theorem inRange_throw {α : Type} (message : String) (code : ErrorCode) :
    InRange (M.throw (.mk message code) : M α) := by
  intro w site
  simp [M.throw]

theorem inRange_modifySelf (f : ITableFunctionFileLike → ITableFunctionFileLike) :
    InRange (M.modifySelf f) := by
  intro w site
  simp [M.modifySelf]

theorem inRange_getSelf : InRange M.getSelf := by
  intro w site
  simp [M.getSelf]

/-- A positional access below the size of the container succeeds. -/
theorem inRange_index {α : Type} (site : String) (v : List α) (i : Nat)
    (h : i < v.length) : InRange (index site v i) := by
  intro w site'
  simp [DB.index, List.getElem?_eq_getElem h, M.pure]

theorem inRange_literalString (ctx : Context) (hctx : ctx.throwsOnlyExceptions)
    (n : IAST) : InRange (literalString ctx n) := by
  intro w site
  rcases n with (_ | _ | _ | t) | ⟨id, cs⟩ <;>
    simp [DB.literalString, M.throw, M.pure, hctx.2.1 _ site, hctx.2.2.1 _ site]

theorem inRange_bind {α β : Type} (x : M α) (f : α → M β) (Q : α → Prop)
    (hx : InRange x) (hQ : ∀ w a w', x w = (.ok a, w') → Q a)
    (hf : ∀ a, Q a → InRange (f a)) : InRange (x >>= f) := by
  intro w site
  rw [M.bind_eq]
  cases hxw : x w with
  | mk res w1 =>
    cases res with
    | ok a => exact hf a (hQ w a w1 hxw) w1 site
    | error e =>
      have := hx w site
      rw [hxw] at this
      simpa using this

theorem inRange_bind_all {α β : Type} (x : M α) (f : α → M β)
    (hx : InRange x) (hf : ∀ a, InRange (f a)) : InRange (x >>= f) :=
  inRange_bind x f (fun _ => True) hx (fun _ _ _ _ => trivial) (fun a _ => hf a)

/-- A branch is entered with its guard known. -/
theorem inRange_ite {α : Type} (c : Prop) [Decidable c] (x y : M α)
    (hx : c → InRange x) (hy : ¬ c → InRange y) : InRange (if c then x else y) := by
  split
  · exact hx ‹_›
  · exact hy ‹_›

theorem reduceArgs_inRange (ctx : Context) (hctx : ctx.throwsOnlyExceptions)
    (args : List IAST) : InRange (reduceArgs ctx args) := by
  induction args with
  | nil => exact inRange_pure _
  | cons a args ih =>
    intro w site
    simp only [reduceArgs, M.bind_eq, M.call]
    cases ha : ctx.evaluateConstantExpressionOrIdentifierAsLiteral a with
    | error e =>
      have := hctx.1 a site
      rw [ha] at this
      simpa using this
    | ok r =>
      have := ih { w with trace := w.trace ++
        [Event.evaluateConstantExpressionOrIdentifierAsLiteral a] } site
      cases hr : reduceArgs ctx args { w with trace := w.trace ++
          [Event.evaluateConstantExpressionOrIdentifierAsLiteral a] } with
      | mk res w1 =>
        rw [hr] at this
        cases res <;> simp_all [M.pure]

/-- Lines 66-88 on a vector of at least 2 arguments: `args[0]` and `args[1]` are
in range by that bound, `args[2]` by the check of line 76, `args[3]` by the check
of line 86. -/
theorem parseReducedArguments_inRange (vt : VTable) (ctx : Context)
    (hctx : ctx.throwsOnlyExceptions) (ast_function list_node : IAST) (args : List IAST)
    (h2 : 2 ≤ args.length) :
    InRange (parseReducedArguments vt ctx ast_function list_node args) := by
  unfold parseReducedArguments
  repeat' first
    | exact inRange_pure _
    | exact inRange_throw _ _
    | exact inRange_modifySelf _
    | exact inRange_literalString ctx hctx _
    | exact inRange_index _ _ _ (by omega)
    | apply inRange_ite
    | apply inRange_bind_all
    | intro _


theorem parseArguments_inRange (vt : VTable) (ctx : Context)
    (hctx : ctx.throwsOnlyExceptions) (ast_function : IAST) :
    InRange (parseArguments vt ctx ast_function) := by
  rw [parseArguments_factor]
  apply inRange_ite
  · intro _
    exact inRange_throw _ _
  · intro h1
    apply inRange_bind_all
    · exact inRange_index _ _ _ (by omega)
    · intro list_node
      apply inRange_ite
      · intro _
        exact inRange_throw _ _
      · intro h2
        apply inRange_bind _ _ (fun rs => 2 ≤ rs.length) (reduceArgs_inRange ctx hctx _)
        · intro w rs w1 hr
          have hm := (reduceArgs_inv ctx _ _ _ _ hr).1
          have hlen : list_node.children.length = rs.length := by
            simpa using congrArg List.length hm
          omega
        · intro rs hrs
          exact parseReducedArguments_inRange vt ctx hctx ast_function list_node rs hrs

theorem sampleContext_throwsOnlyExceptions : sampleContext.throwsOnlyExceptions := by
  refine ⟨?_, ?_, ?_, ?_, ?_, ?_⟩
  · intro arg site
    rcases arg with v | ⟨id, cs⟩
    · simp [sampleContext, sampleReduce]
    · cases cs <;> simp [sampleContext, sampleReduce]
  · intro node site
    simp [sampleContext]
  · intro value site
    simp [sampleContext]
  · intro table_path user_files_path total site
    simp [sampleContext]
  · intro file_name site
    simp [sampleContext]
  · intro text site
    simp only [sampleContext]
    split <;> simp

/-- The only positional failure `getActualTableStructure` can end in is that of
`front()` on the output ports of the opened source (line 107), which no size
check of this file precedes. -/
theorem getActualTableStructure_out_of_range_site (ctx : Context)
    (hctx : ctx.throwsOnlyExceptions) (w : World) (site : String)
    (h : (getActualTableStructure ctx w).1 = .error (.out_of_range site)) :
    site = "getOutputs().front()" := by
  by_cases hs : w.self.structure_ = ""
  · cases hp : ctx.getPathsList w.self.filename ctx.getUserFilesPath 0 with
    | error e =>
      rw [getActualTableStructure_expander_error ctx w e hs hp] at h
      simp only [Except.error.injEq] at h
      exact absurd (h ▸ hp) (hctx.2.2.2.1 _ _ _ site)
    | ok r =>
      obtain ⟨paths, n⟩ := r
      cases paths with
      | nil =>
        rw [getActualTableStructure_no_paths ctx w n hs hp] at h
        simp at h
      | cons p rest =>
        rw [getActualTableStructure_paths ctx w p rest n hs hp] at h
        cases hsrc : ctx.createSourceFromFile p with
        | error e =>
          simp only [hsrc, Except.error.injEq] at h
          exact absurd (h ▸ hsrc) (hctx.2.2.2.2.1 _ site)
        | ok read_stream =>
          cases hout : read_stream.getOutputs with
          | nil =>
            simp only [hsrc, hout, Except.error.injEq, Exception.out_of_range.injEq] at h
            exact h.symm
          | cons port ports => simp [hsrc, hout] at h
  · rw [getActualTableStructure_structure ctx w hs] at h
    exact absurd h (hctx.2.2.2.2.2 _ site)

/-! ## Which size check each positional access is reached under -/

theorem parseReducedArgumentsWith_plain (vt : VTable) (ctx : Context)
    (ast_function list_node : IAST) (args : List IAST) :
    parseReducedArgumentsWith Indexing.plain vt ctx ast_function list_node args =
      parseReducedArguments vt ctx ast_function list_node args := rfl

theorem parseArgumentsWith_plain (vt : VTable) (ctx : Context) (ast_function : IAST) :
    parseArgumentsWith Indexing.plain vt ctx ast_function =
      parseArguments vt ctx ast_function := rfl

theorem getActualTableStructureWith_plain (ctx : Context) :
    getActualTableStructureWith Indexing.plain ctx = getActualTableStructure ctx := rfl

theorem only_of_inRange {α : Type} (s : String) (G : Prop) (x : M α) (h : InRange x) :
    Only s G x := fun w hw => absurd hw (h w s)

theorem only_of {α : Type} (s : String) (G : Prop) (x : M α) (h : G) : Only s G x :=
  fun _ _ => h

theorem trap_other_eq {α : Type} (s site : String) (v : List α) (i : Nat) (h : site ≠ s) :
    (Indexing.trap s).get site v i = index site v i := by
  simp [Indexing.trap, h]

/-- A failing access of the file carries the label of its own site. -/
theorem index_failure_label {α : Type} (site s : String) (v : List α) (i : Nat) (w : World)
    (hw : (index site v i w).1 = .error (.out_of_range s)) : site = s := by
  unfold DB.index at hw
  cases hget : v.get? i with
  | none =>
    rw [hget] at hw
    simpa [M.throw] using hw
  | some a =>
    rw [hget] at hw
    simp [M.pure] at hw

/-- An access at another site than the trap is the access of the file: when it
fails, the failure carries its own label. -/
theorem only_trap_other {α : Type} (s : String) (G : Prop) (site : String) (v : List α)
    (i : Nat) (h : site ≠ s) : Only s G ((Indexing.trap s).get site v i) := by
  intro w hw
  rw [trap_other_eq s site v i h] at hw
  exact absurd (index_failure_label site s v i w hw) h

theorem only_bind {α β : Type} (s : String) (G : Prop) (x : M α) (f : α → M β)
    (hx : Only s G x) (hf : ∀ a, Only s G (f a)) : Only s G (x >>= f) := by
  intro w hw
  rw [M.bind_eq] at hw
  cases hxw : x w with
  | mk res w1 =>
    rw [hxw] at hw
    cases res with
    | ok a => exact hf a w1 hw
    | error e => exact hx w (by rw [hxw]; simpa using hw)

theorem only_ite {α : Type} (s : String) (G : Prop) (c : Prop) [Decidable c] (x y : M α)
    (hx : c → Only s G x) (hy : ¬ c → Only s G y) : Only s G (if c then x else y) := by
  split
  · exact hx ‹_›
  · exact hy ‹_›

/-- Lines 66-88 with any way `ix` of carrying out the accesses whose failures at
the sites other than `args[2]` carry another label: a run ends in the failure
labelled `args[2]` only when there are 3 or 4 arguments, by the check of line 76. -/
theorem parseReducedArgumentsWith_only_third (ix : Indexing) (vt : VTable) (ctx : Context)
    (hctx : ctx.throwsOnlyExceptions) (ast_function list_node : IAST) (args : List IAST)
    (hix : ∀ (site : String) (v : List IAST) (i : Nat), site ≠ "args[2]" →
      Only "args[2]" (args.length = 3 ∨ args.length = 4) (ix.get site v i)) :
    Only "args[2]" (args.length = 3 ∨ args.length = 4)
      (parseReducedArgumentsWith ix vt ctx ast_function list_node args) := by
  unfold parseReducedArgumentsWith
  repeat' first
    | exact hix _ _ _ (by simp)
    | exact only_of _ _ _ (by omega)
    | exact only_of_inRange _ _ _ (inRange_pure _)
    | exact only_of_inRange _ _ _ (inRange_throw _ _)
    | exact only_of_inRange _ _ _ (inRange_modifySelf _)
    | exact only_of_inRange _ _ _ (inRange_literalString ctx hctx _)
    | refine only_ite _ _ _ _ _ (fun _ => ?_) (fun _ => ?_)
    | refine only_bind _ _ _ _ ?_ (fun _ => ?_)

/-- Lines 66-88 with any way `ix` of carrying out the accesses whose failures at
the sites other than `args[3]` carry another label: a run ends in the failure
labelled `args[3]` only when there are exactly 4 arguments, by the check of
line 86. -/
theorem parseReducedArgumentsWith_only_fourth (ix : Indexing) (vt : VTable) (ctx : Context)
    (hctx : ctx.throwsOnlyExceptions) (ast_function list_node : IAST) (args : List IAST)
    (hix : ∀ (site : String) (v : List IAST) (i : Nat), site ≠ "args[3]" →
      Only "args[3]" (args.length = 4) (ix.get site v i)) :
    Only "args[3]" (args.length = 4)
      (parseReducedArgumentsWith ix vt ctx ast_function list_node args) := by
  unfold parseReducedArgumentsWith
  repeat' first
    | exact hix _ _ _ (by simp)
    | exact only_of _ _ _ (by omega)
    | exact only_of_inRange _ _ _ (inRange_pure _)
    | exact only_of_inRange _ _ _ (inRange_throw _ _)
    | exact only_of_inRange _ _ _ (inRange_modifySelf _)
    | exact only_of_inRange _ _ _ (inRange_literalString ctx hctx _)
    | refine only_ite _ _ _ _ _ (fun _ => ?_) (fun _ => ?_)
    | refine only_bind _ _ _ _ ?_ (fun _ => ?_)

/-- From the accesses of lines 66-88 up to the whole of `parseArguments`: a trap
below line 66 is hit only in a call with exactly one argument list, of at least
2 arguments, and under what the size checks of lines 66-88 give. -/
theorem parseArgumentsWith_only (vt : VTable) (ctx : Context)
    (hctx : ctx.throwsOnlyExceptions) (ast_function : IAST) (s : String)
    (hs : "args_func.at(0)" ≠ s) (G : Nat → Prop)
    (hinner : ∀ list_node args, 2 ≤ args.length →
      Only s (G args.length)
        (parseReducedArgumentsWith (Indexing.trap s) vt ctx ast_function list_node args)) :
    Only s (∃ list_node, ast_function.children = [list_node] ∧
        2 ≤ list_node.children.length ∧ G list_node.children.length)
      (parseArgumentsWith (Indexing.trap s) vt ctx ast_function) := by
  intro w hw
  unfold parseArgumentsWith at hw
  by_cases h1 : ast_function.children.length ≠ 1
  · simp [h1, M.throw] at hw
  · obtain ⟨list_node, hfunc⟩ := List.length_eq_one.mp (not_not.mp h1)
    refine ⟨list_node, hfunc, ?_⟩
    by_cases h2 : list_node.children.length < 2
    · simp [hfunc, trap_other_eq _ _ _ _ hs, index, M.bind_eq, M.pure, M.throw, h2] at hw
    · simp only [hfunc, List.length_singleton, ne_eq, not_true_eq_false, if_false,
        trap_other_eq _ _ _ _ hs, index, List.get?_cons_zero, M.bind_eq, M.pure, h2] at hw
      cases hr : reduceArgs ctx list_node.children w with
      | mk res w1 =>
        rw [hr] at hw
        cases res with
        | error e =>
          have := reduceArgs_inRange ctx hctx list_node.children w s
          rw [hr] at this
          exact absurd (by simpa using hw) this
        | ok rs =>
          have hm := (reduceArgs_inv ctx _ _ _ _ hr).1
          have hlen : list_node.children.length = rs.length := by
            simpa using congrArg List.length hm
          have := hinner list_node rs (by omega) w1 hw
          rw [hlen]
          exact ⟨by omega, this⟩

/-- Reaching `args_func.at(0)`: only after the check of line 55. -/
theorem parseArgumentsWith_only_at (vt : VTable) (ctx : Context) (ast_function : IAST) :
    Only "args_func.at(0)" (ast_function.children.length = 1)
      (parseArgumentsWith (Indexing.trap "args_func.at(0)") vt ctx ast_function) := by
  intro w hw
  by_contra h1
  simp [parseArgumentsWith, h1, M.throw] at hw

/-- Reaching `paths[0]`: only after the check of line 104 has found the expanded
list non-empty. -/
theorem getActualTableStructureWith_only_paths (ctx : Context)
    (hctx : ctx.throwsOnlyExceptions) (w : World)
    (hw : reaches "paths[0]" (fun ix => getActualTableStructureWith ix ctx) w) :
    ∃ p rest n,
      ctx.getPathsList w.self.filename ctx.getUserFilesPath 0 = .ok (p :: rest, n) := by
  unfold reaches at hw
  by_cases hs : w.self.structure_.isEmpty = true
  · cases hp : ctx.getPathsList w.self.filename ctx.getUserFilesPath 0 with
    | error e =>
      have := hctx.2.2.2.1 w.self.filename ctx.getUserFilesPath 0 "paths[0]"
      simp [getActualTableStructureWith, M.bind_eq, M.getSelf, hs, M.call, hp] at hw
      exact absurd (hw ▸ hp) this
    | ok r =>
      obtain ⟨paths, n⟩ := r
      cases paths with
      | nil =>
        simp [getActualTableStructureWith, M.bind_eq, M.getSelf, hs, M.call, hp, M.throw] at hw
      | cons p rest => exact ⟨p, rest, n, rfl⟩
  · have := hctx.2.2.2.2.2 w.self.structure_ "paths[0]"
    simp [getActualTableStructureWith, M.bind_eq, M.getSelf, hs, M.call] at hw
    exact absurd hw this

/-- Reaching `front()` on the output ports (line 107): every run that opens a
source reaches it, whatever the number of ports; no size check precedes it. -/
theorem getActualTableStructureWith_reaches_front (ctx : Context) (w : World) (p : String)
    (rest : Strings) (n : Nat) (read_stream : Source)
    (hs : w.self.structure_ = "")
    (hp : ctx.getPathsList w.self.filename ctx.getUserFilesPath 0 = .ok (p :: rest, n))
    (hsrc : ctx.createSourceFromFile p = .ok read_stream) :
    reaches "getOutputs().front()" (fun ix => getActualTableStructureWith ix ctx) w := by
  have he : w.self.structure_.isEmpty = true := by rw [hs]; decide
  have hne : "paths[0]" ≠ "getOutputs().front()" := by simp
  unfold reaches
  simp only [getActualTableStructureWith, M.bind_eq, M.getSelf, he, if_true, M.call, hp,
    List.isEmpty_cons, Bool.false_eq_true, if_false,
    trap_other_eq "getOutputs().front()" "paths[0]" (p :: rest) 0 hne, index,
    List.get?_cons_zero, M.pure, hsrc]
  simp [Indexing.trap, M.throw]

theorem portlessContext_throwsOnlyExceptions : portlessContext.throwsOnlyExceptions := by
  refine ⟨?_, ?_, ?_, ?_, ?_, ?_⟩
  · intro arg site
    rcases arg with v | ⟨id, cs⟩
    · simp [portlessContext, sampleContext, sampleReduce]
    · cases cs <;> simp [portlessContext, sampleContext, sampleReduce]
  · intro node site
    simp [portlessContext, sampleContext]
  · intro value site
    simp [portlessContext, sampleContext]
  · intro table_path user_files_path total site
    simp [portlessContext]
  · intro file_name site
    simp [portlessContext]
  · intro text site
    simp only [portlessContext, sampleContext]
    split <;> simp

/-- The size checks are also what lets a run through: on arguments that reduce
to string literals, 3 or 4 of them reach `args[2]`. -/
theorem parseArgumentsWith_reaches_third (vt : VTable) (ctx : Context)
    (ast_function list_node : IAST) (lits : List String) (w : World)
    (hfunc : ast_function.children = [list_node])
    (hred : reduceToStrings ctx list_node.children lits)
    (hlen : lits.length = 3 ∨ lits.length = 4) :
    reaches "args[2]" (fun ix => parseArgumentsWith ix vt ctx ast_function) w := by
  have hr := reduceArgs_strings ctx _ _ hred w
  have hl := reduceToStrings_length ctx _ _ hred
  unfold reaches
  rcases hlen with h3 | h4
  · match lits, hr, hl, h3 with
    | [s0, s1, s2], hr, hl, _ =>
      simp only [List.length_cons, List.length_nil] at hl
      simp [parseArgumentsWith, parseReducedArgumentsWith, hfunc, Indexing.trap, index,
        M.bind_eq, M.throw, M.pure, hr, lit, literalString, M.modifySelf, ← hl]
  · match lits, hr, hl, h4 with
    | [s0, s1, s2, s3], hr, hl, _ =>
      simp only [List.length_cons, List.length_nil] at hl
      simp [parseArgumentsWith, parseReducedArgumentsWith, hfunc, Indexing.trap, index,
        M.bind_eq, M.throw, M.pure, hr, lit, literalString, M.modifySelf, ← hl]

/-- On 4 arguments that reduce to string literals, the third not empty, the run
reaches `args[3]`. -/
theorem parseArgumentsWith_reaches_fourth (vt : VTable) (ctx : Context)
    (ast_function list_node : IAST) (s0 s1 s2 s3 : String) (w : World)
    (hfunc : ast_function.children = [list_node])
    (hred : reduceToStrings ctx list_node.children [s0, s1, s2, s3])
    (hne : s2 ≠ "") :
    reaches "args[3]" (fun ix => parseArgumentsWith ix vt ctx ast_function) w := by
  have hr := reduceArgs_strings ctx _ _ hred w
  have hl := reduceToStrings_length ctx _ _ hred
  have he : s2.isEmpty = false := by
    rw [Bool.eq_false_iff, ne_eq, String.isEmpty_iff]
    exact hne
  unfold reaches
  simp only [List.length_cons, List.length_nil] at hl
  simp [parseArgumentsWith, parseReducedArgumentsWith, hfunc, Indexing.trap, index,
    M.bind_eq, M.throw, M.pure, hr, lit, literalString, M.modifySelf, ← hl, he]

/-- C19, as stated, fails: with collaborators that throw `DB::Exception`s only
and a source that has no output port, `getActualTableStructure` ends in the
failure of the positional access `getOutputs().front()` of line 107, which no
size check precedes: the out-of-range branch is reached. -/
theorem front_access_unguarded :
    portlessContext.throwsOnlyExceptions ∧
    (getActualTableStructure portlessContext World.inferred).1 =
      .error (.out_of_range "getOutputs().front()") :=
  ⟨portlessContext_throwsOnlyExceptions, rfl⟩

/-- C19, amended: when the code outside the translation unit throws
`DB::Exception`s only, each indexed access is reached only under its size check:
`args_func.at(0)` only when the call node has exactly one child, `args[0]` and
`args[1]` only when the one argument list has at least 2 entries, `args[2]` only
when it has 3 or 4, `args[3]` only when it has exactly 4, `paths[0]` only when
the expanded list is not empty; so `parseArguments` never ends in the failure of
a positional access and `getActualTableStructure` never in that of `paths[0]`.
The access `getOutputs().front()` of line 107 is not guarded: every run that
opens a source reaches it, and it fails exactly when that source has no output
port. The checks of lines 76 and 86 are also what lets a run through: on
arguments that reduce to string literals, 3 or 4 of them reach `args[2]`, and 4
of them with a non-empty third reach `args[3]`. -/
theorem positional_accesses_guarded (vt : VTable) (ctx : Context)
    (hctx : ctx.throwsOnlyExceptions) (ast_function : IAST) (w : World) :
    (reaches "args_func.at(0)" (fun ix => parseArgumentsWith ix vt ctx ast_function) w →
      ast_function.children.length = 1) ∧
    (reaches "args[0]" (fun ix => parseArgumentsWith ix vt ctx ast_function) w →
      ∃ list_node, ast_function.children = [list_node] ∧ 2 ≤ list_node.children.length) ∧
    (reaches "args[1]" (fun ix => parseArgumentsWith ix vt ctx ast_function) w →
      ∃ list_node, ast_function.children = [list_node] ∧ 2 ≤ list_node.children.length) ∧
    (reaches "args[2]" (fun ix => parseArgumentsWith ix vt ctx ast_function) w →
      ∃ list_node, ast_function.children = [list_node] ∧
        (list_node.children.length = 3 ∨ list_node.children.length = 4)) ∧
    (reaches "args[3]" (fun ix => parseArgumentsWith ix vt ctx ast_function) w →
      ∃ list_node, ast_function.children = [list_node] ∧ list_node.children.length = 4) ∧
    (reaches "paths[0]" (fun ix => getActualTableStructureWith ix ctx) w →
      ∃ p rest n,
        ctx.getPathsList w.self.filename ctx.getUserFilesPath 0 = .ok (p :: rest, n)) ∧
    (∀ site, (parseArguments vt ctx ast_function w).1 ≠ .error (.out_of_range site)) ∧
    (getActualTableStructure ctx w).1 ≠ .error (.out_of_range "paths[0]") ∧
    (∀ p rest n read_stream, w.self.structure_ = "" →
      ctx.getPathsList w.self.filename ctx.getUserFilesPath 0 = .ok (p :: rest, n) →
      ctx.createSourceFromFile p = .ok read_stream →
      reaches "getOutputs().front()" (fun ix => getActualTableStructureWith ix ctx) w ∧
      ((getActualTableStructure ctx w).1 = .error (.out_of_range "getOutputs().front()") ↔
        read_stream.getOutputs = [])) ∧
    (∀ list_node lits, ast_function.children = [list_node] →
      reduceToStrings ctx list_node.children lits →
      (lits.length = 3 ∨ lits.length = 4) →
      reaches "args[2]" (fun ix => parseArgumentsWith ix vt ctx ast_function) w) ∧
    (∀ list_node s0 s1 s2 s3, ast_function.children = [list_node] →
      reduceToStrings ctx list_node.children [s0, s1, s2, s3] → s2 ≠ "" →
      reaches "args[3]" (fun ix => parseArgumentsWith ix vt ctx ast_function) w) := by
  refine ⟨?_, ?_, ?_, ?_, ?_, ?_, ?_, ?_, ?_, ?_, ?_⟩
  · exact parseArgumentsWith_only_at vt ctx ast_function w
  · intro h
    obtain ⟨ln, h1, h2, -⟩ := parseArgumentsWith_only vt ctx hctx ast_function "args[0]"
      (by simp) (fun _ => True) (fun _ _ _ => only_of _ _ _ trivial) w h
    exact ⟨ln, h1, h2⟩
  · intro h
    obtain ⟨ln, h1, h2, -⟩ := parseArgumentsWith_only vt ctx hctx ast_function "args[1]"
      (by simp) (fun _ => True) (fun _ _ _ => only_of _ _ _ trivial) w h
    exact ⟨ln, h1, h2⟩
  · intro h
    obtain ⟨ln, h1, -, h3⟩ := parseArgumentsWith_only vt ctx hctx ast_function "args[2]"
      (by simp) (fun k => k = 3 ∨ k = 4)
      (fun list_node args _ => parseReducedArgumentsWith_only_third _ vt ctx hctx
        ast_function list_node args (fun site v i hne => only_trap_other _ _ site v i hne)) w h
    exact ⟨ln, h1, h3⟩
  · intro h
    obtain ⟨ln, h1, -, h3⟩ := parseArgumentsWith_only vt ctx hctx ast_function "args[3]"
      (by simp) (fun k => k = 4)
      (fun list_node args _ => parseReducedArgumentsWith_only_fourth _ vt ctx hctx
        ast_function list_node args (fun site v i hne => only_trap_other _ _ site v i hne)) w h
    exact ⟨ln, h1, h3⟩
  · exact getActualTableStructureWith_only_paths ctx hctx w
  · intro site
    exact parseArguments_inRange vt ctx hctx ast_function w site
  · intro h
    have := getActualTableStructure_out_of_range_site ctx hctx w _ h
    simp at this
  · intro p rest n read_stream hs hp hsrc
    refine ⟨getActualTableStructureWith_reaches_front ctx w p rest n read_stream hs hp hsrc, ?_⟩
    rw [getActualTableStructure_paths ctx w p rest n hs hp]
    cases hout : read_stream.getOutputs <;> simp [hsrc, hout]
  · intro list_node lits hfunc hred hlen
    exact parseArgumentsWith_reaches_third vt ctx ast_function list_node lits w hfunc hred hlen
  · intro list_node s0 s1 s2 s3 hfunc hred hne
    exact parseArgumentsWith_reaches_fourth vt ctx ast_function list_node s0 s1 s2 s3 w
      hfunc hred hne

theorem positional_accesses_guarded_witness :
    ∃ list_node,
      (callNode "file" [lit "a.csv", lit "CSV", lit "id UInt32", lit "gzip"]).children =
        [list_node] ∧ list_node.children.length = 4 :=
  (positional_accesses_guarded (sampleVTable "file") sampleContext
    sampleContext_throwsOnlyExceptions
    (callNode "file" [lit "a.csv", lit "CSV", lit "id UInt32", lit "gzip"])
    World.fresh).2.2.2.2.1 rfl

end DB
